import Mathlib

/-!
# Room lifecycle and seating of the truco session broker (`src/server.js`)

A shallow embedding of the socket handlers of `server.js`.

* The global `rooms` object and each room's `players` object are association
  lists of own properties in insertion order (`for ... in` order for
  non-index keys).
* Client objects are shared between `room.clients` and `room.players`, so they
  live in a heap (`State.heap`) and both places hold references (indices).
* A handler returns `none` when the JavaScript handler throws (an uncaught
  `TypeError` ends the Node process), otherwise the new state and the
  messages it sent, in order.  `console.log` is not modelled.
-/

namespace Truco

/-! ## JavaScript values and objects -/

/-- A value found in a payload field.  `num` is an integer number, `other key`
is any remaining value (array, plain object, non-integer number), kept only
through the string that JavaScript converts it to when it is used as a
property key. -/
inductive JsVal where
  | undefined
  | null
  | bool (b : Bool)
  | num (n : Int)
  | str (s : String)
  | other (key : String)
  deriving DecidableEq, Repr

/-- The property key `o[v]` uses for a value `v` (`ToPropertyKey`). -/
def JsVal.toKey : JsVal → String
  | .undefined => "undefined"
  | .null => "null"
  | .bool true => "true"
  | .bool false => "false"
  | .num n => toString n
  | .str s => s
  | .other key => key

/-- The argument a client sends with an event: `nullish` is `undefined` or
`null` (reading a property of it, or destructuring it, throws); every other
value is seen through its properties. -/
inductive Payload where
  | nullish
  | object (fields : List (String × JsVal))
  deriving DecidableEq, Repr

/-- Reading `fields.name`: a missing property is `undefined`. -/
def field (fields : List (String × JsVal)) (name : String) : JsVal :=
  match fields.find? (fun p => p.1 = name) with
  | some p => p.2
  | none => .undefined

/-- Names every plain object inherits from `Object.prototype`; each is bound
to a truthy value that is not `null`. -/
def objectPrototypeKeys : List String :=
  ["constructor", "__defineGetter__", "__defineSetter__", "hasOwnProperty",
   "__lookupGetter__", "__lookupSetter__", "isPrototypeOf", "propertyIsEnumerable",
   "toString", "valueOf", "__proto__", "toLocaleString"]

/-- Result of `o[key]` on a plain object. -/
inductive Lookup (α : Type) where
  | own (v : α)
  | inherited
  | undefined
  deriving DecidableEq, Repr

/-- Own property lookup. -/
def ownProp {α : Type} : List (String × α) → String → Option α
  | [], _ => none
  | (k, v) :: o, key => if k = key then some v else ownProp o key

/-- The expression `o[key]`. -/
def getProp {α : Type} (o : List (String × α)) (key : String) : Lookup α :=
  match ownProp o key with
  | some v => .own v
  | none => if key ∈ objectPrototypeKeys then .inherited else .undefined

/-- Overwrite the value of an own property, keeping its place. -/
def replaceOwn {α : Type} : List (String × α) → String → α → List (String × α)
  | [], _, _ => []
  | (k, v) :: o, key, w => if k = key then (k, w) :: o else (k, v) :: replaceOwn o key w

/-- The assignment `o[key] = w`: an own property is overwritten, a new one is
added last; assigning to `__proto__` reaches the inherited setter and creates
no own property. -/
def setProp {α : Type} (o : List (String × α)) (key : String) (w : α) : List (String × α) :=
  if key = "__proto__" then o
  else if (ownProp o key).isSome then replaceOwn o key w
  else o ++ [(key, w)]

/-- The statement `delete o[key]`. -/
def deleteProp {α : Type} (o : List (String × α)) (key : String) : List (String × α) :=
  o.filter (fun p => p.1 ≠ key)

/-! ## Data model -/

/-- The object `{ id, name, avatarId, slot }` built by `join_room`. -/
structure Client where
  id : String
  name : JsVal
  avatarId : JsVal
  slot : JsVal
  deriving DecidableEq, Repr

/-- A room object; `players` and `clients` hold references into the heap. -/
structure Room where
  id : String
  name : String
  players : List (String × Option Nat)
  playerCount : Int
  clients : List Nat
  gameStarted : Bool
  deriving DecidableEq, Repr

/-- The global `rooms` object together with the heap of client objects. -/
structure State where
  rooms : List (String × Room)
  heap : List Client
  deriving DecidableEq, Repr

/-- The state at server start: `const rooms = {}`. -/
def State.init : State := { rooms := [], heap := [] }

/-! ## Outbound messages -/

/-- One entry of the list sent by `broadcastRoomList`. -/
structure RoomInfo where
  id : String
  name : String
  count : Int
  full : Bool
  deriving DecidableEq, Repr

/-- Who receives an emit: `socket.emit`, `io.emit`, `io.to(r).emit`,
`socket.to(r).emit`. -/
inductive Target where
  | socket (id : String)
  | all
  | room (r : JsVal)
  | roomExcept (r : JsVal) (sender : String)
  deriving DecidableEq, Repr

/-- Event name and payload of an emit.  A seat table is sent as it serialises
at the time of the emit: every reference replaced by the object it points to. -/
inductive Body where
  | room_list_update (list : List RoomInfo)
  | room_error (text : String)
  | room_created (roomId : String)
  | room_state (roomId roomName : String) (players : List (String × Option Client))
      (mySessionId : String)
  | sit_error (text : String)
  | update_players (players : List (String × Option Client))
  | player_disco (slot name : JsVal)
  | remote_game_start
  | relay (event : String) (data : Payload)
  deriving DecidableEq, Repr

/-- An effect of a handler on the transport: `socket.join(room)` or an emit. -/
inductive Out where
  | join (socket : String) (room : JsVal)
  | emit (target : Target) (body : Body)
  deriving DecidableEq, Repr

/-! ## Helpers of the handlers -/

/-- The seat table as it is serialised into a message. -/
def snapshot (heap : List Client) (players : List (String × Option Nat)) :
    List (String × Option Client) :=
  players.map (fun p => (p.1, p.2.bind (fun r => heap[r]?)))

/-- The callback `c => c.id === socket.id` on a reference. -/
def isSocket (heap : List Client) (socket : String) (r : Nat) : Bool :=
  match heap[r]? with
  | some c => decide (c.id = socket)
  | none => false

/-- The function `broadcastRoomList`, as the message it emits to everyone. -/
def broadcastRoomList (rooms : List (String × Room)) : Out :=
  .emit .all (.room_list_update
    (rooms.map (fun p => RoomInfo.mk p.1 p.2.name p.2.playerCount
                           (decide (p.2.playerCount ≥ (4 : Int))))))

/-- The function `getRoomBySocket`. -/
def getRoomBySocket (s : State) (socket : String) : Option Room :=
  (s.rooms.find? (fun p => (p.2.clients.find? (isSocket s.heap socket)).isSome)).map (fun p => p.2)

/-- The `while (true)` search of `create_room`, run for at most `fuel` rounds
from `roomNum`; `none` when the rounds run out. -/
def searchRoomNum (rooms : List (String × Room)) : Nat → Nat → Option Nat
  | 0, _ => none
  | fuel + 1, roomNum =>
    match getProp rooms ("room_" ++ toString roomNum) with
    | .undefined => some roomNum
    | _ => searchRoomNum rooms fuel (roomNum + 1)

/-- The object literal `{ 0: null, 1: null, 2: null, 3: null }`. -/
def emptySeats : List (String × Option Nat) :=
  [("0", none), ("1", none), ("2", none), ("3", none)]

/-! ## Handlers -/

/-- Handler of `create_room`, after destructuring. -/
def create_room (s : State) (socket : String) (_playerName : JsVal) :
    Option (State × List Out) :=
  if s.rooms.length ≥ 10 then
    some (s, [.emit (.socket socket)
      (.room_error "Limite de salas atingido (Máx 10). Aguarde uma sala esvaziar.")])
  else
    match searchRoomNum s.rooms (s.rooms.length + 1) 1 with
    | none => none
    | some roomNum =>
      let roomId := "room_" ++ toString roomNum
      let roomName := "Sala " ++ toString roomNum
      let rooms := setProp s.rooms roomId
        { id := roomId, name := roomName, players := emptySeats, playerCount := 0,
          clients := [], gameStarted := false }
      some ({ s with rooms := rooms },
        [.emit (.socket socket) (.room_created roomId), broadcastRoomList rooms])

/-- Handler of `join_room`, after destructuring. -/
def join_room (s : State) (socket : String) (roomId playerName avatarId : JsVal) :
    Option (State × List Out) :=
  match getProp s.rooms roomId.toKey with
  | .undefined => some (s, [.emit (.socket socket) (.room_error "Sala não encontrada.")])
  | .inherited => none
  | .own room =>
    let clientObj : Client :=
      { id := socket, name := playerName, avatarId := avatarId, slot := .num (-1) }
    let heap := s.heap ++ [clientObj]
    let room1 := { room with clients := room.clients ++ [s.heap.length] }
    some ({ rooms := replaceOwn s.rooms roomId.toKey room1, heap := heap },
      [.join socket roomId,
       .emit (.socket socket)
         (.room_state room1.id room1.name (snapshot heap room1.players) socket)])

/-- Handler of `sit_down`, after destructuring. -/
def sit_down (s : State) (socket : String) (roomId slot : JsVal) :
    Option (State × List Out) :=
  match getProp s.rooms roomId.toKey with
  | .undefined => some (s, [])
  | .inherited => none
  | .own room =>
    match getProp room.players slot.toKey with
    | .own none =>
      match room.clients.find? (isSocket s.heap socket) with
      | none => some (s, [])
      | some ref =>
        match s.heap[ref]? with
        | none => some (s, [])
        | some client =>
          let room1 :=
            if client.slot ≠ .num (-1) then
              { room with players := setProp room.players client.slot.toKey none,
                          playerCount := room.playerCount - 1 }
            else room
          let heap := s.heap.set ref { client with slot := slot }
          let room2 := { room1 with players := setProp room1.players slot.toKey (some ref),
                                    playerCount := room1.playerCount + 1 }
          let rooms := replaceOwn s.rooms roomId.toKey room2
          some ({ rooms := rooms, heap := heap },
            [.emit (.room roomId) (.update_players (snapshot heap room2.players)),
             broadcastRoomList rooms])
    | _ => some (s, [.emit (.socket socket) (.sit_error "Lugar ocupado!")])

/-- Handler of `leave_seat`, after destructuring.  The `player_disco` object is
built after `client.slot = -1`, so it reads the updated field. -/
def leave_seat (s : State) (socket : String) (roomId : JsVal) : Option (State × List Out) :=
  match getProp s.rooms roomId.toKey with
  | .undefined => some (s, [])
  | .inherited => none
  | .own room =>
    match room.clients.find? (isSocket s.heap socket) with
    | none => some (s, [])
    | some ref =>
      match s.heap[ref]? with
      | none => some (s, [])
      | some client =>
        if client.slot ≠ .num (-1) then
          let room1 := { room with players := setProp room.players client.slot.toKey none,
                                   playerCount := room.playerCount - 1 }
          let client1 := { client with slot := .num (-1) }
          let heap := s.heap.set ref client1
          let rooms := replaceOwn s.rooms roomId.toKey room1
          some ({ rooms := rooms, heap := heap },
            [.emit (.room roomId) (.update_players (snapshot heap room1.players)),
             broadcastRoomList rooms] ++
            (if room1.gameStarted then
              [.emit (.room roomId) (.player_disco client1.slot client1.name)]
             else []))
        else some (s, [])

/-- Handler of `request_start_game`, after destructuring. -/
def request_start_game (s : State) (_socket : String) (roomId : JsVal) :
    Option (State × List Out) :=
  match getProp s.rooms roomId.toKey with
  | .own room =>
    if room.playerCount = 4 then
      some ({ s with rooms := replaceOwn s.rooms roomId.toKey { room with gameStarted := true } },
        [.emit (.room roomId) .remote_game_start])
    else some (s, [])
  | _ => some (s, [])

/-- Handler of `distribuir_cartas`. -/
def distribuir_cartas (s : State) (socket : String) (data : Payload) :
    Option (State × List Out) :=
  match data with
  | .nullish => none
  | .object fields =>
    some (s, [.emit (.roomExcept (field fields "roomId") socket) (.relay "distribuir_cartas" data)])

/-- Handlers of `jogar_carta` and `truco_action`: relay under the name `event`. -/
def relayBySocket (event : String) (s : State) (socket : String) (data : Payload) :
    Option (State × List Out) :=
  match getRoomBySocket s socket with
  | some room => some (s, [.emit (.roomExcept (.str room.id) socket) (.relay event data)])
  | none => some (s, [])

/-- Body of the `for (const id in rooms)` loop of the `disconnect` handler, over
the rooms still to visit. -/
def disconnectLoop (s : State) (socket : String) : List (String × Room) → State × List Out
  | [] => (s, [])
  | (id, room) :: rest =>
    match room.clients.findIdx? (isSocket s.heap socket) with
    | none => disconnectLoop s socket rest
    | some clientIdx =>
      match (room.clients[clientIdx]?).bind (fun r => s.heap[r]?) with
      | none => (s, [])
      | some client =>
        let seated := decide (client.slot ≠ .num (-1))
        let room1 :=
          if seated then
            { room with players := setProp room.players client.slot.toKey none,
                        playerCount := room.playerCount - 1 }
          else room
        let outs1 : List Out :=
          if seated then
            [.emit (.room (.str id)) (.update_players (snapshot s.heap room1.players))] ++
            (if room1.gameStarted then
              [.emit (.room (.str id)) (.player_disco client.slot client.name)]
             else [])
          else []
        let room2 := { room1 with clients := room1.clients.eraseIdx clientIdx }
        let rooms :=
          if room2.clients.length = 0 then deleteProp s.rooms id
          else replaceOwn s.rooms id room2
        ({ s with rooms := rooms }, outs1 ++ [broadcastRoomList rooms])

/-- Handler of `disconnect`. -/
def disconnect (s : State) (socket : String) : Option (State × List Out) :=
  some (disconnectLoop s socket s.rooms)

/-! ## Dispatcher -/

/-- An inbound event with the socket it arrives on and the argument sent. -/
inductive Event where
  | connection (socket : String)
  | create_room (socket : String) (payload : Payload)
  | join_room (socket : String) (payload : Payload)
  | sit_down (socket : String) (payload : Payload)
  | leave_seat (socket : String) (payload : Payload)
  | request_start_game (socket : String) (payload : Payload)
  | distribuir_cartas (socket : String) (data : Payload)
  | jogar_carta (socket : String) (data : Payload)
  | truco_action (socket : String) (data : Payload)
  | disconnect (socket : String)
  deriving DecidableEq, Repr

/-- One event processed to completion: parameter destructuring, then the
handler. -/
def step (s : State) : Event → Option (State × List Out)
  | .connection _ => some (s, [broadcastRoomList s.rooms])
  | .create_room _ .nullish => none
  | .create_room socket (.object f) => create_room s socket (field f "playerName")
  | .join_room _ .nullish => none
  | .join_room socket (.object f) =>
    join_room s socket (field f "roomId") (field f "playerName") (field f "avatarId")
  | .sit_down _ .nullish => none
  | .sit_down socket (.object f) => sit_down s socket (field f "roomId") (field f "slot")
  | .leave_seat _ .nullish => none
  | .leave_seat socket (.object f) => leave_seat s socket (field f "roomId")
  | .request_start_game _ .nullish => none
  | .request_start_game socket (.object f) => request_start_game s socket (field f "roomId")
  | .distribuir_cartas socket data => distribuir_cartas s socket data
  | .jogar_carta socket data => relayBySocket "remote_jogar_carta" s socket data
  | .truco_action socket data => relayBySocket "remote_truco_action" s socket data
  | .disconnect socket => disconnect s socket

/-- Events processed one after another; the messages of all of them in order. -/
def run (s : State) : List Event → Option (State × List Out)
  | [] => some (s, [])
  | e :: es =>
    match step s e with
    | none => none
    | some (s1, outs1) =>
      match run s1 es with
      | none => none
      | some (s2, outs2) => some (s2, outs1 ++ outs2)

/-- States the server can be in: the start state and every state a completed
handler leaves. -/
inductive Reachable : State → Prop where
  | init : Reachable State.init
  | step {s s1 : State} {e : Event} {outs : List Out} :
      Reachable s → step s e = some (s1, outs) → Reachable s1

/-- The state after a run of events from the start state (the start state
itself when a handler of the run throws). -/
def State.after (es : List Event) : State :=
  match run State.init es with
  | some p => p.1
  | none => State.init

/-- The messages of a run of events from the start state. -/
def outsAfter (es : List Event) : List Out :=
  match run State.init es with
  | some p => p.2
  | none => []

/-! ## Observations used in the statements -/

/-- The keys of the four seats. -/
def seatKeys : List String := ["0", "1", "2", "3"]

/-- Seat `key` of a seat table holds a participant. -/
def occupiedAt (players : List (String × Option Nat)) (key : String) : Bool :=
  match ownProp players key with
  | some (some _) => true
  | _ => false

/-- The roster entry behind reference `r` has a slot other than `-1`. -/
def seated (heap : List Client) (r : Nat) : Bool :=
  match heap[r]? with
  | some c => decide (c.slot ≠ .num (-1))
  | none => false

/-- Number of non-empty entries among seats 0..3. -/
def occupiedSeats (room : Room) : Nat := seatKeys.countP (occupiedAt room.players)

/-- Number of roster entries whose slot is not `-1`. -/
def seatedClients (heap : List Client) (room : Room) : Nat :=
  room.clients.countP (seated heap)

/-- The participant held by seat `key` of a room, if any. -/
def seatHolder (heap : List Client) (room : Room) (key : String) : Option Client :=
  match ownProp room.players key with
  | some (some r) => heap[r]?
  | _ => none

/-- The roster of a room as a list of participants. -/
def roster (heap : List Client) (room : Room) : List Client :=
  room.clients.filterMap (fun r => heap[r]?)

/-- Payload `{ roomId }`. -/
def inRoom (roomId : String) : Payload := .object [("roomId", .str roomId)]

/-- Payload `{ roomId, slot }`. -/
def atSeat (roomId : String) (slot : Int) : Payload :=
  .object [("roomId", .str roomId), ("slot", .num slot)]

/-! ## The invariant of reachable states -/

/-- What holds of every room of a reachable state, relative to the heap. -/
structure RoomInv (heap : List Client) (key : String) (room : Room) : Prop where
  id_eq : room.id = key
  keys : room.players.map Prod.fst = seatKeys
  nodup : room.clients.Nodup
  bound : ∀ r ∈ room.clients, r < heap.length
  seat_roster : ∀ k r, ownProp room.players k = some (some r) →
    r ∈ room.clients ∧ ∃ c, heap[r]? = some c ∧ c.slot.toKey = k
  roster_seat : ∀ r ∈ room.clients, ∀ c, heap[r]? = some c → c.slot ≠ .num (-1) →
    ownProp room.players c.slot.toKey = some (some r)
  count_seats : room.playerCount = (occupiedSeats room : Int)
  count_roster : room.playerCount = (seatedClients heap room : Int)
  first : ∀ r ∈ room.clients, ∀ c, heap[r]? = some c → c.slot ≠ .num (-1) →
    room.clients.find? (isSocket heap c.id) = some r

/-- What holds of every reachable state. -/
structure Inv (s : State) : Prop where
  keys_nodup : (s.rooms.map Prod.fst).Nodup
  rooms_ok : ∀ k room, (k, room) ∈ s.rooms → RoomInv s.heap k room
  disjoint : ∀ k1 room1 k2 room2, (k1, room1) ∈ s.rooms → (k2, room2) ∈ s.rooms →
    ∀ r, r ∈ room1.clients → r ∈ room2.clients → k1 = k2
  ids : ∀ k room, (k, room) ∈ s.rooms → ∃ n : Nat, 1 ≤ n ∧ n ≤ 10 ∧ k = "room_" ++ toString n
  cap : s.rooms.length ≤ 10

/-- The room invariant with the slot of the roster entry `ref` left out of account. -/
structure Detached (heap : List Client) (key : String) (room : Room) (ref : Nat) : Prop where
  id_eq : room.id = key
  keys : room.players.map Prod.fst = seatKeys
  nodup : room.clients.Nodup
  bound : ∀ r ∈ room.clients, r < heap.length
  mem : ref ∈ room.clients
  seat_roster : ∀ k r, ownProp room.players k = some (some r) →
    r ∈ room.clients ∧ r ≠ ref ∧ ∃ c, heap[r]? = some c ∧ c.slot.toKey = k
  roster_seat : ∀ r ∈ room.clients, r ≠ ref → ∀ c, heap[r]? = some c → c.slot ≠ .num (-1) →
    ownProp room.players c.slot.toKey = some (some r)
  count_seats : room.playerCount = (occupiedSeats room : Int)
  count_roster : room.playerCount =
    (room.clients.countP (fun r => decide (r ≠ ref) && seated heap r) : Int)
  first : ∀ r ∈ room.clients, r ≠ ref → ∀ c, heap[r]? = some c → c.slot ≠ .num (-1) →
    room.clients.find? (isSocket heap c.id) = some r

/-- The first statements of the seated branch: `room.players[client.slot] = null;
room.playerCount--`, skipped for a client whose slot is `-1`. -/
def vacate (room : Room) (client : Client) : Room :=
  if client.slot ≠ .num (-1) then
    { room with players := setProp room.players client.slot.toKey none,
                playerCount := room.playerCount - 1 }
  else room

/-- The id `room_n`, as the template literal of `create_room` builds it. -/
def roomKey (n : Nat) : String := "room_" ++ toString n

/-! ## Sample runs -/

/-- Payload `{ roomId, playerName, avatarId }`. -/
def joining (roomId name : String) : Payload :=
  .object [("roomId", .str roomId), ("playerName", .str name), ("avatarId", .num 1)]

/-- One room, `A` joined and seated at seat 2, `B` joined and standing. -/
def traceSeated : List Event :=
  [.create_room "A" (.object [("playerName", .str "Ana")]),
   .join_room "A" (joining "room_1" "Ana"),
   .join_room "B" (joining "room_1" "Bia"),
   .sit_down "A" (atSeat "room_1" 2)]

/-- Ten `create_room` events. -/
def traceTenRooms : List Event :=
  List.replicate 10 (.create_room "A" (.object [("playerName", .str "Ana")]))

/-- The room object `create_room` stores for number `n`. -/
def newRoom (n : Nat) : Room :=
  { id := roomKey n, name := "Sala " ++ toString n, players := emptySeats, playerCount := 0,
    clients := [], gameStarted := false }

/-- Three rooms created, then `B` joins `room_2` and disconnects, which removes
`room_2`. -/
def traceFreed : List Event :=
  [.create_room "A" (.object []), .create_room "A" (.object []), .create_room "A" (.object []),
   .join_room "B" (joining "room_2" "Bia"),
   .disconnect "B"]

/-- The room `room_1` after `traceSeated`. -/
def roomSeated : Room :=
  { id := "room_1", name := "Sala 1",
    players := [("0", none), ("1", none), ("2", some 0), ("3", none)],
    playerCount := 1, clients := [0, 1], gameStarted := false }

/-- Connection `A` joins `room_1` twice, sits at seat 2 and then at seat 0. -/
def traceJoinedTwice : List Event :=
  [.create_room "A" (.object []),
   .join_room "A" (joining "room_1" "Ana"),
   .join_room "A" (joining "room_1" "Ana"),
   .sit_down "A" (atSeat "room_1" 2),
   .sit_down "A" (atSeat "room_1" 0)]

/-- Connection `A` joins `room_1` and then `room_2`. -/
def traceTwoRooms : List Event :=
  [.create_room "A" (.object []), .create_room "A" (.object []),
   .join_room "A" (joining "room_1" "Ana"),
   .join_room "A" (joining "room_2" "Ana")]

/-- The room `room_1` after `traceJoinedTwice`. -/
def roomJoinedTwice : Room :=
  { id := "room_1", name := "Sala 1",
    players := [("0", some 0), ("1", none), ("2", none), ("3", none)],
    playerCount := 1, clients := [0, 1], gameStarted := false }

/-- The handles of the roster entries of every room, by room id. -/
def rosterHandles (s : State) : List (String × List String) :=
  s.rooms.map (fun p => (p.1, (roster s.heap p.2).map (fun c => c.id)))

/-- Four connections join `room_1` and take its four seats. -/
def traceFour : List Event :=
  [.create_room "A" (.object []),
   .join_room "A" (joining "room_1" "Ana"), .join_room "B" (joining "room_1" "Bia"),
   .join_room "C" (joining "room_1" "Caio"), .join_room "D" (joining "room_1" "Duda"),
   .sit_down "A" (atSeat "room_1" 0), .sit_down "B" (atSeat "room_1" 1),
   .sit_down "C" (atSeat "room_1" 2), .sit_down "D" (atSeat "room_1" 3)]

/-- The table of `traceFour` with the game started. -/
def traceStarted : List Event := traceFour ++ [.request_start_game "A" (inRoom "room_1")]

/-- The started table after `A` has left its seat. -/
def traceLeft : List Event := traceStarted ++ [.leave_seat "A" (inRoom "room_1")]

/-- The `gameStarted` flag of room `key`, if the room exists. -/
def startedFlag (s : State) (key : String) : Option Bool :=
  (ownProp s.rooms key).map (fun room => room.gameStarted)

/-- The `playerCount` of room `key`, if the room exists. -/
def countOf (s : State) (key : String) : Option Int :=
  (ownProp s.rooms key).map (fun room => room.playerCount)

/-- The branch of the `disconnect` loop taken for the room `id` in which the
entry `clientIdx` of the roster belongs to the socket: seat cleared if the
client is seated, entry spliced out, room deleted when the roster is empty,
room list sent. -/
def removeClient (s : State) (id : String) (room : Room) (clientIdx : Nat) (client : Client) :
    State × List Out :=
  let seated := decide (client.slot ≠ .num (-1))
  let room1 :=
    if seated then
      { room with players := setProp room.players client.slot.toKey none,
                  playerCount := room.playerCount - 1 }
    else room
  let outs1 : List Out :=
    if seated then
      [.emit (.room (.str id)) (.update_players (snapshot s.heap room1.players))] ++
      (if room1.gameStarted then
        [.emit (.room (.str id)) (.player_disco client.slot client.name)]
       else [])
    else []
  let room2 := { room1 with clients := room1.clients.eraseIdx clientIdx }
  let rooms :=
    if room2.clients.length = 0 then deleteProp s.rooms id
    else replaceOwn s.rooms id room2
  ({ s with rooms := rooms }, outs1 ++ [broadcastRoomList rooms])

/-- The socket has a roster entry in the room. -/
def hasEntry (heap : List Client) (socket : String) (room : Room) : Bool :=
  room.clients.any (isSocket heap socket)

/-- The references of all roster entries of the socket, room by room. -/
def entriesOf (s : State) (socket : String) : List Nat :=
  (s.rooms.map (fun p => p.2.clients.filter (isSocket s.heap socket))).flatten

/-- A room after the seated roster entry `ref` at seat `seat` has been taken
out by `disconnect`. -/
def roomWithout (room : Room) (seat : String) (ref : Nat) : Room :=
  { room with players := setProp room.players seat none,
              playerCount := room.playerCount - 1,
              clients := room.clients.erase ref }

/-- The directory after `disconnect` has taken the seated entry `ref` out of
room `key`. -/
def roomsWithout (rooms : List (String × Room)) (key : String) (room : Room) (seat : String)
    (ref : Nat) : List (String × Room) :=
  if (room.clients.erase ref).length = 0 then deleteProp rooms key
  else replaceOwn rooms key (roomWithout room seat ref)

/-- The room `room_1` after `traceStarted`. -/
def roomStarted : Room :=
  { id := "room_1", name := "Sala 1",
    players := [("0", some 0), ("1", some 1), ("2", some 2), ("3", some 3)],
    playerCount := 4, clients := [0, 1, 2, 3], gameStarted := true }

/-- The ids listed by the `room_list_update` messages among `outs`. -/
def listedIds : List Out → List String
  | [] => []
  | .emit _ (.room_list_update list) :: outs => list.map (fun i => i.id) ++ listedIds outs
  | _ :: outs => listedIds outs

/-- Three rooms, `B` alone in `room_2`. -/
def traceAlone : List Event :=
  [.create_room "A" (.object []), .create_room "A" (.object []), .create_room "A" (.object []),
   .join_room "B" (joining "room_2" "Bia")]

/-- Connection `A` joins `room_1` and `room_2` and sits down in both. -/
def traceTwoSeats : List Event :=
  traceTwoRooms ++ [.sit_down "A" (atSeat "room_1" 0), .sit_down "A" (atSeat "room_2" 1)]

/-- The handle of the participant each seat of each room holds, by room id. -/
def seatHandles (s : State) : List (String × List (String × Option String)) :=
  s.rooms.map (fun p =>
    (p.1, (snapshot s.heap p.2.players).map (fun q => (q.1, q.2.map (fun c => c.id)))))

/-- The scenario: `A` creates a room, joins it, sits at seat 2 and disconnects. -/
def traceScenario : List Event :=
  [.create_room "A" (.object [("playerName", .str "Ana")]),
   .join_room "A" (joining "room_1" "Ana"),
   .sit_down "A" (atSeat "room_1" 2),
   .disconnect "A"]

/-- The roster entry of `A` while seated at seat 2. -/
def anaAtTwo : Client := { id := "A", name := .str "Ana", avatarId := .num 1, slot := .num 2 }

/-- The message is a `room_list_update`. -/
def isRoomList : Out → Bool
  | .emit _ (.room_list_update _) => true
  | _ => false

/-- The event is a `join_room` whose `roomId` names the room `key`. -/
def joinsRoom (key : String) : Event → Bool
  | .join_room _ (.object f) => decide ((field f "roomId").toKey = key)
  | _ => false

/-- How one handler run changes the directory: not at all, by one new room, by
replacing the room object of one id, or by deleting one room that had roster
entries. -/
def RoomsChange (s : State) (e : Event) (s1 : State) : Prop :=
  s1.rooms = s.rooms ∨
  (∃ n, ownProp s.rooms (roomKey n) = none ∧ s1.rooms = s.rooms ++ [(roomKey n, newRoom n)]) ∨
  (∃ k room room1, ownProp s.rooms k = some room ∧ s1.rooms = replaceOwn s.rooms k room1 ∧
    room1.id = room.id ∧ room1.name = room.name ∧
    (room.gameStarted = true → room1.gameStarted = true) ∧
    (room1.clients = room.clients ∨ joinsRoom k e = true ∨ room.clients ≠ [])) ∨
  (∃ k room, ownProp s.rooms k = some room ∧ room.clients ≠ [] ∧ s1.rooms = deleteProp s.rooms k)

/-- Every `room_list_update` among the messages carries the list of `rooms`. -/
def ListsCurrent (outs : List Out) (rooms : List (String × Room)) : Prop :=
  ∀ o ∈ outs, isRoomList o = true → o = broadcastRoomList rooms

/-- The room `key` is in the directory in every state of the run of `es` from
`s`, the first and the last included. -/
def presentAlong (key : String) : State → List Event → Bool
  | s, [] => (ownProp s.rooms key).isSome
  | s, e :: es =>
    (ownProp s.rooms key).isSome &&
      (match step s e with
       | some p => presentAlong key p.1 es
       | none => true)

/-- Events after the game of `traceStarted` has started: a player leaves the
seat and sits down again, another connection joins, a member disconnects, a
card is played and the start is requested again. -/
def traceAfterStart : List Event :=
  [.leave_seat "A" (inRoom "room_1"), .sit_down "A" (atSeat "room_1" 0),
   .join_room "E" (joining "room_1" "Eva"), .disconnect "B",
   .jogar_carta "C" (.object [("carta", .num 3)]),
   .request_start_game "C" (inRoom "room_1")]

/-- The entry `broadcastRoomList` builds for a room object. -/
def roomInfo (room : Room) : RoomInfo :=
  RoomInfo.mk room.id room.name room.playerCount (decide (room.playerCount ≥ (4 : Int)))

/-- No event of the run is a `join_room` for the room `key`. -/
def neverJoins (key : String) (es : List Event) : Bool :=
  es.all (fun e => !joinsRoom key e)

/-- Events around the never-joined rooms of `traceFreed`: connections come and
go through a new `room_2`, and requests name `room_1` and `room_3`. -/
def traceAround : List Event :=
  [.create_room "C" (.object []), .join_room "C" (joining "room_2" "Caio"),
   .sit_down "C" (atSeat "room_2" 0), .sit_down "C" (atSeat "room_1" 0),
   .leave_seat "C" (inRoom "room_3"), .request_start_game "C" (inRoom "room_1"),
   .disconnect "C", .disconnect "A"]

/-! ## Lemmas on objects as association lists -/

theorem ownProp_mem {α : Type} {o : List (String × α)} {key : String} {v : α}
    (h : ownProp o key = some v) : (key, v) ∈ o := by
  induction o with
  | nil => simp [ownProp] at h
  | cons p o ih =>
    obtain ⟨k, w⟩ := p
    simp only [ownProp] at h
    split at h
    · rename_i hk
      cases h; subst hk; exact List.mem_cons_self _ _
    · exact List.mem_cons_of_mem _ (ih h)

theorem ownProp_of_mem {α : Type} {o : List (String × α)} {key : String} {v : α}
    (hnd : (o.map Prod.fst).Nodup) (h : (key, v) ∈ o) : ownProp o key = some v := by
  induction o with
  | nil => cases h
  | cons p o ih =>
    obtain ⟨k, w⟩ := p
    simp only [List.map_cons, List.nodup_cons] at hnd
    simp only [ownProp]
    rcases List.mem_cons.1 h with h1 | h1
    · cases h1; simp
    · have hne : k ≠ key := by
        rintro rfl
        exact hnd.1 (List.mem_map_of_mem Prod.fst h1)
      rw [if_neg hne]
      exact ih hnd.2 h1

theorem ownProp_key_mem {α : Type} {o : List (String × α)} {key : String} {v : α}
    (h : ownProp o key = some v) : key ∈ o.map Prod.fst :=
  List.mem_map_of_mem Prod.fst (ownProp_mem h)

theorem ownProp_eq_none {α : Type} {o : List (String × α)} {key : String}
    (h : key ∉ o.map Prod.fst) : ownProp o key = none := by
  cases hv : ownProp o key with
  | none => rfl
  | some v => exact absurd (ownProp_key_mem hv) h

theorem keys_replaceOwn {α : Type} (o : List (String × α)) (key : String) (w : α) :
    (replaceOwn o key w).map Prod.fst = o.map Prod.fst := by
  induction o with
  | nil => rfl
  | cons p o ih =>
    obtain ⟨k, v⟩ := p
    simp only [replaceOwn]
    split <;> simp [ih]

theorem length_replaceOwn {α : Type} (o : List (String × α)) (key : String) (w : α) :
    (replaceOwn o key w).length = o.length := by
  have h := congrArg List.length (keys_replaceOwn o key w)
  simpa using h

theorem ownProp_replaceOwn {α : Type} (o : List (String × α)) (key key1 : String) (w : α) :
    ownProp (replaceOwn o key w) key1 =
      if key1 = key ∧ (ownProp o key).isSome then some w else ownProp o key1 := by
  induction o with
  | nil => simp [replaceOwn, ownProp]
  | cons p o ih =>
    obtain ⟨k, v⟩ := p
    simp only [replaceOwn, ownProp]
    by_cases hk : k = key
    · subst hk
      simp only [if_true, ownProp, Option.isSome_some, and_true]
      by_cases h1 : k = key1
      · subst h1; simp
      · have : ¬ key1 = k := fun h => h1 h.symm
        simp [h1, this]
    · simp only [if_neg hk, ownProp, ih]
      by_cases h1 : k = key1
      · subst h1
        have : ¬ k = key := hk
        simp [this]
      · simp [h1]

theorem mem_replaceOwn {α : Type} {o : List (String × α)} {key key1 : String} {w v : α}
    (hnd : (o.map Prod.fst).Nodup) (h : (key1, v) ∈ replaceOwn o key w) :
    (key1 = key ∧ v = w) ∨ (key1 ≠ key ∧ (key1, v) ∈ o) := by
  have hnd1 : ((replaceOwn o key w).map Prod.fst).Nodup := by rw [keys_replaceOwn]; exact hnd
  have h1 := ownProp_of_mem hnd1 h
  rw [ownProp_replaceOwn] at h1
  split at h1
  · rename_i hc
    left; exact ⟨hc.1, by cases h1; rfl⟩
  · rename_i hc
    by_cases hk : key1 = key
    · subst hk
      have h2 := ownProp_mem h1
      have : (ownProp o key1).isSome := by rw [h1]; rfl
      exact absurd ⟨rfl, this⟩ hc
    · right; exact ⟨hk, ownProp_mem h1⟩

theorem setProp_own {α : Type} {o : List (String × α)} {key : String} {v : α} (w : α)
    (hp : key ≠ "__proto__") (h : ownProp o key = some v) :
    setProp o key w = replaceOwn o key w := by
  simp [setProp, hp, h]

theorem setProp_new {α : Type} {o : List (String × α)} {key : String} (w : α)
    (hp : key ≠ "__proto__") (h : ownProp o key = none) :
    setProp o key w = o ++ [(key, w)] := by
  simp [setProp, hp, h]

theorem mem_deleteProp {α : Type} {o : List (String × α)} {key key1 : String} {v : α} :
    (key1, v) ∈ deleteProp o key ↔ (key1, v) ∈ o ∧ key1 ≠ key := by
  simp [deleteProp]

theorem keys_deleteProp_sublist {α : Type} (o : List (String × α)) (key : String) :
    ((deleteProp o key).map Prod.fst).Sublist (o.map Prod.fst) :=
  List.Sublist.map _ (List.filter_sublist o)

theorem countP_update {α : Type} [DecidableEq α] (p q : α → Bool) (a : α) :
    ∀ l : List α, l.Nodup → a ∈ l → (∀ x ∈ l, x ≠ a → q x = p x) →
      (l.countP q : Int) = l.countP p - (if p a then 1 else 0) + (if q a then 1 else 0) := by
  intro l
  induction l with
  | nil => intro _ h; cases h
  | cons b l ih =>
    intro hnd hmem hpq
    rw [List.nodup_cons] at hnd
    by_cases hb : b = a
    · subst hb
      have hc : l.countP q = l.countP p := by
        apply List.countP_congr
        intro x hx
        have hxb : x ≠ b := fun h => hnd.1 (h ▸ hx)
        rw [hpq x (List.mem_cons_of_mem _ hx) hxb]
      rw [List.countP_cons, List.countP_cons, hc]
      cases hp : p b <;> cases hq : q b <;> simp
    · have hmem1 : a ∈ l := by
        rcases List.mem_cons.1 hmem with h | h
        · exact absurd h.symm hb
        · exact h
      have := ih hnd.2 hmem1 (fun x hx hxa => hpq x (List.mem_cons_of_mem _ hx) hxa)
      rw [List.countP_cons, List.countP_cons, hpq b (List.mem_cons_self _ _) hb]
      push_cast
      rw [this]; ring

theorem countP_same {α : Type} (p q : α → Bool) (l : List α) (h : ∀ x ∈ l, q x = p x) :
    l.countP q = l.countP p := by
  apply List.countP_congr
  intro x hx
  rw [h x hx]

theorem find?_same {α : Type} (p q : α → Bool) :
    ∀ l : List α, (∀ x ∈ l, q x = p x) → l.find? q = l.find? p := by
  intro l
  induction l with
  | nil => intro _; rfl
  | cons b l ih =>
    intro h
    rw [List.find?_cons, List.find?_cons, h b (List.mem_cons_self _ _),
      ih (fun x hx => h x (List.mem_cons_of_mem _ hx))]

theorem isSocket_congr {heap heap1 : List Client} {socket : String} {r : Nat}
    (h : heap1[r]? = heap[r]?) : isSocket heap1 socket r = isSocket heap socket r := by
  simp [isSocket, h]

theorem seated_congr {heap heap1 : List Client} {r : Nat}
    (h : heap1[r]? = heap[r]?) : seated heap1 r = seated heap r := by
  simp [seated, h]

theorem isSocket_set_slot {heap : List Client} {ref : Nat} {client : Client} (v : JsVal)
    (h : heap[ref]? = some client) (socket : String) (r : Nat) :
    isSocket (heap.set ref { client with slot := v }) socket r = isSocket heap socket r := by
  by_cases hr : ref = r
  · subst hr
    have hlt : ref < heap.length := by
      rcases Nat.lt_or_ge ref heap.length with h1 | h1
      · exact h1
      · rw [List.getElem?_eq_none h1] at h; cases h
    simp [isSocket, List.getElem?_set, hlt, h]
  · simp [isSocket, List.getElem?_set, hr]

theorem getElem?_set_ne {heap : List Client} {ref r : Nat} (c : Client) (h : r ≠ ref) :
    (heap.set ref c)[r]? = heap[r]? := by
  simp [List.getElem?_set, Ne.symm h]

theorem getElem?_set_self {heap : List Client} {ref : Nat} {client : Client} (c : Client)
    (h : heap[ref]? = some client) : (heap.set ref c)[ref]? = some c := by
  have hlt : ref < heap.length := by
    rcases Nat.lt_or_ge ref heap.length with h1 | h1
    · exact h1
    · rw [List.getElem?_eq_none h1] at h; cases h
  simp [List.getElem?_set, hlt]

theorem RoomInv.frame {heap heap1 : List Client} {key : String} {room : Room}
    (h : RoomInv heap key room) (hlen : heap.length ≤ heap1.length)
    (hsame : ∀ r ∈ room.clients, heap1[r]? = heap[r]?) : RoomInv heap1 key room where
  id_eq := h.id_eq
  keys := h.keys
  nodup := h.nodup
  bound := fun r hr => Nat.lt_of_lt_of_le (h.bound r hr) hlen
  seat_roster := by
    intro k r hk
    obtain ⟨hr, c, hc, hck⟩ := h.seat_roster k r hk
    exact ⟨hr, c, by rw [hsame r hr]; exact hc, hck⟩
  roster_seat := by
    intro r hr c hc hs
    rw [hsame r hr] at hc
    exact h.roster_seat r hr c hc hs
  count_seats := h.count_seats
  count_roster := by
    rw [h.count_roster]
    simp only [seatedClients]
    rw [countP_same (seated heap) (seated heap1) room.clients
      (fun x hx => seated_congr (hsame x hx))]
  first := by
    intro r hr c hc hs
    rw [hsame r hr] at hc
    rw [find?_same (isSocket heap c.id) (isSocket heap1 c.id) room.clients
      (fun x hx => isSocket_congr (hsame x hx))]
    exact h.first r hr c hc hs

theorem getProp_own {α : Type} {o : List (String × α)} {key : String} {v : α}
    (h : getProp o key = .own v) : ownProp o key = some v := by
  unfold getProp at h
  cases hv : ownProp o key with
  | none => rw [hv] at h; simp only at h; split at h <;> cases h
  | some w => rw [hv] at h; simp only at h; cases h; rfl

theorem getProp_undefined {α : Type} {o : List (String × α)} {key : String}
    (h : getProp o key = .undefined) : ownProp o key = none := by
  unfold getProp at h
  cases hv : ownProp o key with
  | none => rfl
  | some w => rw [hv] at h; cases h

theorem find?_mem_pred {α : Type} {p : α → Bool} {l : List α} {a : α}
    (h : l.find? p = some a) : a ∈ l ∧ p a = true :=
  ⟨List.mem_of_find?_eq_some h, List.find?_some h⟩

theorem isSocket_elim {heap : List Client} {socket : String} {r : Nat}
    (h : isSocket heap socket r = true) : ∃ c, heap[r]? = some c ∧ c.id = socket := by
  unfold isSocket at h
  cases hc : heap[r]? with
  | none => rw [hc] at h; cases h
  | some c => rw [hc] at h; exact ⟨c, rfl, by simpa using h⟩

theorem toKey_minus_one_not_seat : (JsVal.num (-1)).toKey ∉ seatKeys := by decide

theorem seatKey_ne_proto {k : String} (h : k ∈ seatKeys) : k ≠ "__proto__" := by
  rintro rfl
  revert h
  decide

theorem slot_ne_minus_one {v : JsVal} (h : v.toKey ∈ seatKeys) : v ≠ .num (-1) := by
  rintro rfl
  exact toKey_minus_one_not_seat h

theorem seatKeys_nodup : seatKeys.Nodup := by decide

theorem own_key_is_seat {players : List (String × Option Nat)} {k : String} {v : Option Nat}
    (hk : players.map Prod.fst = seatKeys) (h : ownProp players k = some v) : k ∈ seatKeys := by
  rw [← hk]; exact ownProp_key_mem h

theorem ownProp_setProp_seat {players : List (String × Option Nat)} {k : String} {v : Option Nat}
    (hk : players.map Prod.fst = seatKeys) (h : ownProp players k = some v) (w : Option Nat)
    (k1 : String) :
    ownProp (setProp players k w) k1 = if k1 = k then some w else ownProp players k1 := by
  rw [setProp_own w (seatKey_ne_proto (own_key_is_seat hk h)) h, ownProp_replaceOwn]
  simp [h]

theorem keys_setProp_seat {players : List (String × Option Nat)} {k : String} {v : Option Nat}
    (hk : players.map Prod.fst = seatKeys) (h : ownProp players k = some v) (w : Option Nat) :
    (setProp players k w).map Prod.fst = seatKeys := by
  rw [setProp_own w (seatKey_ne_proto (own_key_is_seat hk h)) h, keys_replaceOwn, hk]

theorem occupied_setProp {players : List (String × Option Nat)} {k : String} {v : Option Nat}
    (hk : players.map Prod.fst = seatKeys) (h : ownProp players k = some v) (w : Option Nat) :
    (seatKeys.countP (occupiedAt (setProp players k w)) : Int) =
      seatKeys.countP (occupiedAt players) - (if v.isSome then 1 else 0)
        + (if w.isSome then 1 else 0) := by
  have h1 := countP_update (occupiedAt players) (occupiedAt (setProp players k w)) k seatKeys
    seatKeys_nodup (own_key_is_seat hk h) (by
      intro x _ hx
      simp only [occupiedAt, ownProp_setProp_seat hk h w x, if_neg hx])
  rw [h1]
  have e1 : occupiedAt players k = v.isSome := by
    simp only [occupiedAt, h]; cases v <;> rfl
  have e2 : occupiedAt (setProp players k w) k = w.isSome := by
    simp only [occupiedAt, ownProp_setProp_seat hk h w k, if_true]; cases w <;> rfl
  rw [e1, e2]

theorem RoomInv.detach {heap : List Client} {key : String} {room : Room} {ref : Nat}
    {client : Client} (h : RoomInv heap key room) (hmem : ref ∈ room.clients)
    (hc : heap[ref]? = some client) : Detached heap key (vacate room client) ref := by
  by_cases hs : client.slot = .num (-1)
  · have hv : vacate room client = room := by simp [vacate, hs]
    rw [hv]
    refine ⟨h.id_eq, h.keys, h.nodup, h.bound, hmem, ?_, ?_, h.count_seats, ?_, ?_⟩
    · intro k r hk
      obtain ⟨hr, c, hcr, hck⟩ := h.seat_roster k r hk
      refine ⟨hr, ?_, c, hcr, hck⟩
      rintro rfl
      rw [hc] at hcr; cases hcr
      rw [hs] at hck
      exact toKey_minus_one_not_seat (hck ▸ own_key_is_seat h.keys hk)
    · intro r hr _ c hcr hseat
      exact h.roster_seat r hr c hcr hseat
    · rw [h.count_roster]
      simp only [seatedClients]
      have := countP_update (seated heap) (fun r => decide (r ≠ ref) && seated heap r) ref
        room.clients h.nodup hmem (by intro x _ hx; simp [hx])
      rw [this]
      simp [seated, hc, hs]
    · intro r hr _ c hcr hseat
      exact h.first r hr c hcr hseat
  · have hown := h.roster_seat ref hmem client hc hs
    have hv : vacate room client =
        { room with players := setProp room.players client.slot.toKey none,
                    playerCount := room.playerCount - 1 } := by simp [vacate, hs]
    rw [hv]
    refine ⟨h.id_eq, keys_setProp_seat h.keys hown none, h.nodup, h.bound, hmem, ?_, ?_, ?_, ?_, ?_⟩
    · intro k r hk
      simp only [ownProp_setProp_seat h.keys hown none k] at hk
      split at hk
      · cases hk
      · rename_i hne
        obtain ⟨hr, c, hcr, hck⟩ := h.seat_roster k r hk
        refine ⟨hr, ?_, c, hcr, hck⟩
        rintro rfl
        rw [hc] at hcr; cases hcr
        exact hne hck.symm
    · intro r hr hne c hcr hseat
      have h1 := h.roster_seat r hr c hcr hseat
      simp only [ownProp_setProp_seat h.keys hown none c.slot.toKey]
      split
      · rename_i heq
        rw [heq, hown] at h1
        cases h1; exact absurd rfl hne
      · exact h1
    · simp only [occupiedSeats]
      rw [occupied_setProp h.keys hown none, h.count_seats]
      simp [occupiedSeats]
    · simp only
      rw [h.count_roster]
      simp only [seatedClients]
      have := countP_update (seated heap) (fun r => decide (r ≠ ref) && seated heap r) ref
        room.clients h.nodup hmem (by intro x _ hx; simp [hx])
      rw [this]
      simp [seated, hc, hs]
    · intro r hr _ c hcr hseat
      exact h.first r hr c hcr hseat

theorem Detached.occupy {heap : List Client} {key : String} {room : Room} {ref : Nat}
    {client : Client} {slot : JsVal} (h : Detached heap key room ref)
    (hc : heap[ref]? = some client)
    (hfirst : room.clients.find? (isSocket heap client.id) = some ref)
    (hfree : ownProp room.players slot.toKey = some none) :
    RoomInv (heap.set ref { client with slot := slot }) key
      { room with players := setProp room.players slot.toKey (some ref),
                  playerCount := room.playerCount + 1 } := by
  have hseat : slot.toKey ∈ seatKeys := own_key_is_seat h.keys hfree
  have hself : (heap.set ref { client with slot := slot })[ref]? =
      some { client with slot := slot } := getElem?_set_self _ hc
  refine ⟨h.id_eq, keys_setProp_seat h.keys hfree _, h.nodup, ?_, ?_, ?_, ?_, ?_, ?_⟩
  · intro r hr
    rw [List.length_set]; exact h.bound r hr
  · intro k r hk
    simp only [ownProp_setProp_seat h.keys hfree (some ref) k] at hk
    split at hk
    · rename_i heq
      cases hk
      exact ⟨h.mem, _, hself, heq.symm⟩
    · obtain ⟨hr, hne, c, hcr, hck⟩ := h.seat_roster k r hk
      exact ⟨hr, c, by rw [getElem?_set_ne _ hne]; exact hcr, hck⟩
  · intro r hr c hcr hseated
    simp only [ownProp_setProp_seat h.keys hfree (some ref) c.slot.toKey]
    by_cases hne : r = ref
    · subst hne
      rw [hself] at hcr; cases hcr
      simp
    · rw [getElem?_set_ne _ hne] at hcr
      have h1 := h.roster_seat r hr hne c hcr hseated
      split
      · rename_i heq
        rw [heq, hfree] at h1; cases h1
      · exact h1
  · simp only [occupiedSeats]
    rw [occupied_setProp h.keys hfree (some ref), h.count_seats]
    simp [occupiedSeats]
  · simp only [seatedClients]
    have := countP_update (fun r => decide (r ≠ ref) && seated heap r)
      (seated (heap.set ref { client with slot := slot })) ref room.clients h.nodup h.mem (by
        intro x _ hx
        simp [hx, seated, getElem?_set_ne _ hx])
    rw [this, h.count_roster]
    have hs : slot ≠ .num (-1) := slot_ne_minus_one hseat
    simp [seated, hself, hs]
  · intro r hr c hcr hseated
    have hsame : ∀ x ∈ room.clients,
        isSocket (heap.set ref { client with slot := slot }) c.id x = isSocket heap c.id x :=
      fun x _ => isSocket_set_slot slot hc c.id x
    show room.clients.find? _ = some r
    rw [find?_same _ _ room.clients hsame]
    by_cases hne : r = ref
    · subst hne
      rw [hself] at hcr; cases hcr
      exact hfirst
    · rw [getElem?_set_ne _ hne] at hcr
      exact h.first r hr hne c hcr hseated

theorem Detached.stand {heap : List Client} {key : String} {room : Room} {ref : Nat}
    {client : Client} (h : Detached heap key room ref) (hc : heap[ref]? = some client) :
    RoomInv (heap.set ref { client with slot := .num (-1) }) key room := by
  have hself : (heap.set ref { client with slot := .num (-1) })[ref]? =
      some { client with slot := .num (-1) } := getElem?_set_self _ hc
  refine ⟨h.id_eq, h.keys, h.nodup, ?_, ?_, ?_, h.count_seats, ?_, ?_⟩
  · intro r hr
    rw [List.length_set]; exact h.bound r hr
  · intro k r hk
    obtain ⟨hr, hne, c, hcr, hck⟩ := h.seat_roster k r hk
    exact ⟨hr, c, by rw [getElem?_set_ne _ hne]; exact hcr, hck⟩
  · intro r hr c hcr hseated
    by_cases hne : r = ref
    · subst hne
      rw [hself] at hcr; cases hcr
      exact absurd rfl hseated
    · rw [getElem?_set_ne _ hne] at hcr
      exact h.roster_seat r hr hne c hcr hseated
  · simp only [seatedClients]
    have := countP_update (fun r => decide (r ≠ ref) && seated heap r)
      (seated (heap.set ref { client with slot := .num (-1) })) ref room.clients h.nodup h.mem (by
        intro x _ hx
        simp [hx, seated, getElem?_set_ne _ hx])
    rw [this, h.count_roster]
    simp [seated, hself]
  · intro r hr c hcr hseated
    have hsame : ∀ x ∈ room.clients,
        isSocket (heap.set ref { client with slot := .num (-1) }) c.id x = isSocket heap c.id x :=
      fun x _ => isSocket_set_slot _ hc c.id x
    rw [find?_same _ _ room.clients hsame]
    by_cases hne : r = ref
    · subst hne
      rw [hself] at hcr; cases hcr
      exact absurd rfl hseated
    · rw [getElem?_set_ne _ hne] at hcr
      exact h.first r hr hne c hcr hseated

theorem eraseIdx_eq_erase {l : List Nat} (hnd : l.Nodup) :
    ∀ {i : Nat} {a : Nat}, l[i]? = some a → l.eraseIdx i = l.erase a := by
  induction l with
  | nil => intro i a h; simp at h
  | cons b l ih =>
    intro i a h
    rw [List.nodup_cons] at hnd
    cases i with
    | zero =>
      simp at h; subst h
      simp
    | succ i =>
      simp at h
      have hmem : a ∈ l := List.getElem?_mem h
      have hne : b ≠ a := fun e => hnd.1 (e ▸ hmem)
      rw [List.eraseIdx_cons_succ, List.erase_cons_tail (by simpa using hne), ih hnd.2 h]

theorem find?_erase_ne {p : Nat → Bool} {r a : Nat} :
    ∀ {l : List Nat}, l.find? p = some r → a ≠ r → (l.erase a).find? p = some r := by
  intro l
  induction l with
  | nil => intro h; simp at h
  | cons b l ih =>
    intro h hne
    rw [List.find?_cons] at h
    by_cases hba : b = a
    · subst hba
      rw [List.erase_cons_head]
      cases hp : p b with
      | true => rw [hp] at h; cases h; exact absurd rfl hne
      | false => rw [hp] at h; exact h
    · rw [List.erase_cons_tail (by simpa using hba), List.find?_cons]
      cases hp : p b with
      | true => rw [hp] at h; exact h
      | false => rw [hp] at h; exact ih h hne

theorem countP_erase_false {p : Nat → Bool} {a : Nat} (hp : p a = false) :
    ∀ l : List Nat, (l.erase a).countP p = l.countP p := by
  intro l
  induction l with
  | nil => rfl
  | cons b l ih =>
    by_cases hba : b = a
    · subst hba
      rw [List.erase_cons_head, List.countP_cons, hp]; simp
    · rw [List.erase_cons_tail (by simpa using hba), List.countP_cons, List.countP_cons, ih]

theorem Detached.remove {heap : List Client} {key : String} {room : Room} {ref : Nat}
    (h : Detached heap key room ref) :
    RoomInv heap key { room with clients := room.clients.erase ref } := by
  have hsub : ∀ r, r ∈ room.clients.erase ref → r ∈ room.clients ∧ r ≠ ref := by
    intro r hr
    have := (List.Nodup.mem_erase_iff h.nodup).1 hr
    exact ⟨this.2, this.1⟩
  refine ⟨h.id_eq, h.keys, h.nodup.erase ref, ?_, ?_, ?_, h.count_seats, ?_, ?_⟩
  · intro r hr
    exact h.bound r (hsub r hr).1
  · intro k r hk
    obtain ⟨hr, hne, c, hcr, hck⟩ := h.seat_roster k r hk
    exact ⟨(List.Nodup.mem_erase_iff h.nodup).2 ⟨hne, hr⟩, c, hcr, hck⟩
  · intro r hr c hcr hseated
    exact h.roster_seat r (hsub r hr).1 (hsub r hr).2 c hcr hseated
  · simp only [seatedClients]
    rw [h.count_roster, ← countP_erase_false (a := ref) (by simp) room.clients]
    congr 1
    apply countP_same
    intro x hx
    simp [(hsub x hx).2]
  · intro r hr c hcr hseated
    have h1 := h.first r (hsub r hr).1 (hsub r hr).2 c hcr hseated
    exact find?_erase_ne h1 (Ne.symm (hsub r hr).2)

theorem Inv.replace {s : State} {key : String} {room room1 : Room} {heap1 : List Client}
    (h : Inv s) (hroom : ownProp s.rooms key = some room)
    (hlen : s.heap.length ≤ heap1.length)
    (hsame : ∀ r, r ∉ room.clients → r < s.heap.length → heap1[r]? = s.heap[r]?)
    (hinv : RoomInv heap1 key room1)
    (hfresh : ∀ r ∈ room1.clients, r ∈ room.clients ∨ s.heap.length ≤ r) :
    Inv { rooms := replaceOwn s.rooms key room1, heap := heap1 } := by
  have hmemroom : (key, room) ∈ s.rooms := ownProp_mem hroom
  have hold : ∀ k room2, k ≠ key → (k, room2) ∈ s.rooms → ∀ r ∈ room2.clients,
      r ∉ room.clients ∧ r < s.heap.length := by
    intro k room2 hk hm r hr
    refine ⟨fun hr1 => hk (h.disjoint k room2 key room hm hmemroom r hr hr1), ?_⟩
    exact (h.rooms_ok k room2 hm).bound r hr
  refine ⟨?_, ?_, ?_, ?_, ?_⟩
  · show ((replaceOwn s.rooms key room1).map Prod.fst).Nodup
    rw [keys_replaceOwn]; exact h.keys_nodup
  · intro k room2 hm
    rcases mem_replaceOwn h.keys_nodup hm with ⟨hk, hr⟩ | ⟨hk, hm1⟩
    · subst hk; subst hr; exact hinv
    · exact (h.rooms_ok k room2 hm1).frame hlen
        (fun r hr => hsame r (hold k room2 hk hm1 r hr).1 (hold k room2 hk hm1 r hr).2)
  · intro k1 r1 k2 r2 hm1 hm2 r hr1 hr2
    rcases mem_replaceOwn h.keys_nodup hm1 with ⟨hk1, he1⟩ | ⟨hk1, hn1⟩
    · rcases mem_replaceOwn h.keys_nodup hm2 with ⟨hk2, _⟩ | ⟨hk2, hn2⟩
      · rw [hk1, hk2]
      · rw [he1] at hr1
        rcases hfresh r hr1 with hin | hge
        · exact absurd hin (hold k2 r2 hk2 hn2 r hr2).1
        · exact absurd (hold k2 r2 hk2 hn2 r hr2).2 (Nat.not_lt.2 hge)
    · rcases mem_replaceOwn h.keys_nodup hm2 with ⟨hk2, he2⟩ | ⟨hk2, hn2⟩
      · rw [he2] at hr2
        rcases hfresh r hr2 with hin | hge
        · exact absurd hin (hold k1 r1 hk1 hn1 r hr1).1
        · exact absurd (hold k1 r1 hk1 hn1 r hr1).2 (Nat.not_lt.2 hge)
      · exact h.disjoint k1 r1 k2 r2 hn1 hn2 r hr1 hr2
  · intro k room2 hm
    have hk : k ∈ (replaceOwn s.rooms key room1).map Prod.fst := List.mem_map_of_mem Prod.fst hm
    rw [keys_replaceOwn] at hk
    obtain ⟨⟨k0, room0⟩, hm0, hk0⟩ := List.mem_map.1 hk
    simp only at hk0; subst hk0
    exact h.ids k0 room0 hm0
  · show (replaceOwn s.rooms key room1).length ≤ 10
    rw [length_replaceOwn]; exact h.cap

theorem Inv.delete {s : State} (h : Inv s) (key : String) :
    Inv { s with rooms := deleteProp s.rooms key } := by
  refine ⟨?_, ?_, ?_, ?_, ?_⟩
  · exact h.keys_nodup.sublist (keys_deleteProp_sublist s.rooms key)
  · intro k room hm
    exact h.rooms_ok k room (mem_deleteProp.1 hm).1
  · intro k1 r1 k2 r2 hm1 hm2
    exact h.disjoint k1 r1 k2 r2 (mem_deleteProp.1 hm1).1 (mem_deleteProp.1 hm2).1
  · intro k room hm
    exact h.ids k room (mem_deleteProp.1 hm).1
  · exact le_trans (List.length_filter_le _ _) h.cap

theorem Inv.init : Inv State.init := by
  refine ⟨?_, ?_, ?_, ?_, ?_⟩ <;> simp [State.init]

/-- The room object built by `create_room`. -/
theorem RoomInv.fresh (heap : List Client) (key name : String) :
    RoomInv heap key
      { id := key, name := name, players := emptySeats, playerCount := 0, clients := [],
        gameStarted := false } := by
  refine ⟨rfl, rfl, List.nodup_nil, ?_, ?_, ?_, ?_, ?_, ?_⟩
  · intro r hr; cases hr
  · intro k r hk
    exfalso
    simp only [emptySeats, ownProp] at hk
    repeat' split at hk
    all_goals cases hk
  · intro r hr; cases hr
  · simp [occupiedSeats, seatKeys, emptySeats, occupiedAt, ownProp]
  · simp [seatedClients]
  · intro r hr; cases hr

theorem Inv.add {s : State} {key name : String} {n : Nat} (h : Inv s)
    (hnew : ownProp s.rooms key = none) (hn1 : 1 ≤ n) (hn2 : n ≤ 10)
    (hkey : key = "room_" ++ toString n) (hcap : s.rooms.length < 10) :
    Inv { s with rooms := s.rooms ++ [(key,
      { id := key, name := name, players := emptySeats, playerCount := 0, clients := [],
        gameStarted := false })] } := by
  have hnotin : key ∉ s.rooms.map Prod.fst := by
    intro hk
    obtain ⟨⟨k0, room0⟩, hm0, hk0⟩ := List.mem_map.1 hk
    simp only at hk0; subst hk0
    rw [ownProp_of_mem h.keys_nodup hm0] at hnew; cases hnew
  refine ⟨?_, ?_, ?_, ?_, ?_⟩
  · show ((s.rooms ++ [_]).map Prod.fst).Nodup
    rw [List.map_append, List.nodup_append]
    refine ⟨h.keys_nodup, by simp, ?_⟩
    intro a ha hb
    simp at hb; subst hb
    exact hnotin ha
  · intro k room hm
    rcases List.mem_append.1 hm with hm | hm
    · exact h.rooms_ok k room hm
    · simp at hm
      obtain ⟨hk, hr⟩ := hm
      subst hk; subst hr
      exact RoomInv.fresh _ _ _
  · intro k1 r1 k2 r2 hm1 hm2 r hr1 hr2
    rcases List.mem_append.1 hm1 with hm1 | hm1
    · rcases List.mem_append.1 hm2 with hm2 | hm2
      · exact h.disjoint k1 r1 k2 r2 hm1 hm2 r hr1 hr2
      · simp at hm2; rw [hm2.2] at hr2; cases hr2
    · simp at hm1; rw [hm1.2] at hr1; cases hr1
  · intro k room hm
    rcases List.mem_append.1 hm with hm | hm
    · exact h.ids k room hm
    · simp at hm
      exact ⟨n, hn1, hn2, hm.1.trans hkey⟩
  · show (s.rooms ++ [_]).length ≤ 10
    simp; omega

theorem searchRoomNum_some {rooms : List (String × Room)} :
    ∀ (fuel start n : Nat), searchRoomNum rooms fuel start = some n →
      start ≤ n ∧ n < start + fuel ∧ getProp rooms (roomKey n) = .undefined ∧
      ∀ m, start ≤ m → m < n → getProp rooms (roomKey m) ≠ .undefined := by
  intro fuel
  induction fuel with
  | zero => intro start n h; simp [searchRoomNum] at h
  | succ fuel ih =>
    intro start n h
    simp only [searchRoomNum] at h
    split at h
    · rename_i hu
      cases h
      exact ⟨le_refl _, by omega, hu, fun m h1 h2 => absurd h1 (by omega)⟩
    · rename_i hu
      obtain ⟨h1, h2, h3, h4⟩ := ih (start + 1) n h
      refine ⟨by omega, by omega, h3, ?_⟩
      intro m hm1 hm2
      by_cases hms : m = start
      · subst hms; exact fun e => hu e
      · exact h4 m (by omega) hm2

theorem searchRoomNum_none {rooms : List (String × Room)} :
    ∀ (fuel start : Nat), searchRoomNum rooms fuel start = none →
      ∀ m, start ≤ m → m < start + fuel → getProp rooms (roomKey m) ≠ .undefined := by
  intro fuel
  induction fuel with
  | zero => intro start _ m h1 h2; omega
  | succ fuel ih =>
    intro start h m hm1 hm2
    simp only [searchRoomNum] at h
    split at h
    · cases h
    · rename_i hu
      by_cases hms : m = start
      · subst hms; exact fun e => hu e
      · exact ih (start + 1) h m (by omega) (by omega)

theorem roomKey_not_inherited {n : Nat} (h1 : 1 ≤ n) (h2 : n ≤ 10) :
    roomKey n ∉ objectPrototypeKeys := by
  interval_cases n <;> decide

theorem roomKey_ne_proto {n : Nat} (h1 : 1 ≤ n) (h2 : n ≤ 10) : roomKey n ≠ "__proto__" := by
  interval_cases n <;> decide

theorem roomKeys_nodup : ((List.range' 1 10).map roomKey).Nodup := by decide

theorem getProp_roomKey {rooms : List (String × Room)} {n : Nat} (h1 : 1 ≤ n) (h2 : n ≤ 10) :
    getProp rooms (roomKey n) ≠ .undefined ↔ (ownProp rooms (roomKey n)).isSome := by
  unfold getProp
  cases ownProp rooms (roomKey n) with
  | none => simp [roomKey_not_inherited h1 h2]
  | some v => simp

/-- Fewer than ten own keys leave one of `room_1 .. room_10` unused, so the
search started at 1 with one round per key and one more finds a number. -/
theorem searchRoomNum_terminates {rooms : List (String × Room)} (hlen : rooms.length < 10) :
    ∃ n, searchRoomNum rooms (rooms.length + 1) 1 = some n := by
  cases h : searchRoomNum rooms (rooms.length + 1) 1 with
  | some n => exact ⟨n, rfl⟩
  | none =>
    exfalso
    have hall := searchRoomNum_none _ _ h
    have hsub : (List.range' 1 (rooms.length + 1)).map roomKey ⊆ rooms.map Prod.fst := by
      intro k hk
      obtain ⟨m, hm, rfl⟩ := List.mem_map.1 hk
      rw [List.mem_range'_1] at hm
      have := (@getProp_roomKey rooms m hm.1 (by omega)).1 (hall m hm.1 (by omega))
      cases hv : ownProp rooms (roomKey m) with
      | none => rw [hv] at this; cases this
      | some v => exact ownProp_key_mem hv
    have hnd : ((List.range' 1 (rooms.length + 1)).map roomKey).Nodup := by
      have hpre : (List.range' 1 (rooms.length + 1)).Sublist (List.range' 1 10) := by
        rw [List.range'_sublist_right]; omega
      exact roomKeys_nodup.sublist (hpre.map roomKey)
    have := (List.subperm_of_subset hnd hsub).length_le
    simp at this

theorem RoomInv.join {heap : List Client} {key : String} {room : Room} (c : Client)
    (h : RoomInv heap key room) (hc : c.slot = .num (-1)) :
    RoomInv (heap ++ [c]) key { room with clients := room.clients ++ [heap.length] } := by
  have hold : ∀ r, r < heap.length → (heap ++ [c])[r]? = heap[r]? :=
    fun r hr => List.getElem?_append_left hr
  have h1 : RoomInv (heap ++ [c]) key room :=
    h.frame (by simp) (fun r hr => hold r (h.bound r hr))
  have hnew : (heap ++ [c])[heap.length]? = some c := by simp
  have hnotin : heap.length ∉ room.clients := fun hm => Nat.lt_irrefl _ (h.bound _ hm)
  refine ⟨h1.id_eq, h1.keys, ?_, ?_, ?_, ?_, h1.count_seats, ?_, ?_⟩
  · show (room.clients ++ [heap.length]).Nodup
    rw [List.nodup_append]
    refine ⟨h.nodup, by simp, ?_⟩
    intro a ha hb
    simp at hb; subst hb
    exact hnotin ha
  · intro r hr
    rcases List.mem_append.1 hr with hr | hr
    · exact h1.bound r hr
    · simp at hr; subst hr; simp
  · intro k r hk
    obtain ⟨hr, hrest⟩ := h1.seat_roster k r hk
    exact ⟨List.mem_append_left _ hr, hrest⟩
  · intro r hr c1 hc1 hseated
    rcases List.mem_append.1 hr with hr | hr
    · exact h1.roster_seat r hr c1 hc1 hseated
    · simp at hr; subst hr
      rw [hnew] at hc1; cases hc1
      exact absurd hc hseated
  · simp only [seatedClients]
    rw [List.countP_append, h1.count_roster]
    simp [seatedClients, seated, hc]
  · intro r hr c1 hc1 hseated
    show (room.clients ++ [heap.length]).find? _ = some r
    rcases List.mem_append.1 hr with hr | hr
    · rw [List.find?_append, h1.first r hr c1 hc1 hseated]; rfl
    · simp at hr; subst hr
      rw [hnew] at hc1; cases hc1
      exact absurd hc hseated

theorem Inv.create_room {s s1 : State} {socket : String} {playerName : JsVal} {outs : List Out}
    (h : Inv s) (hstep : create_room s socket playerName = some (s1, outs)) : Inv s1 := by
  unfold Truco.create_room at hstep
  split at hstep
  · cases hstep; exact h
  · rename_i hcap
    split at hstep
    · cases hstep
    · rename_i n hn
      have hlen : s.rooms.length < 10 := by omega
      obtain ⟨h1, h2, h3, _⟩ := searchRoomNum_some _ _ _ hn
      have hn10 : n ≤ 10 := by omega
      have hnone : ownProp s.rooms (roomKey n) = none := getProp_undefined h3
      simp only [Option.some.injEq, Prod.mk.injEq] at hstep
      rw [← hstep.1]
      show Inv { s with rooms := setProp s.rooms (roomKey n) _ }
      rw [setProp_new _ (roomKey_ne_proto h1 hn10) hnone]
      exact h.add hnone h1 hn10 rfl hlen

theorem Inv.join_room {s s1 : State} {socket : String} {roomId playerName avatarId : JsVal}
    {outs : List Out} (h : Inv s)
    (hstep : join_room s socket roomId playerName avatarId = some (s1, outs)) : Inv s1 := by
  unfold Truco.join_room at hstep
  split at hstep
  · cases hstep; exact h
  · cases hstep
  · rename_i room hroom
    have hown := getProp_own hroom
    simp only [Option.some.injEq, Prod.mk.injEq] at hstep
    rw [← hstep.1]
    refine h.replace hown (by simp) (fun r _ hr => List.getElem?_append_left hr)
      ((h.rooms_ok _ _ (ownProp_mem hown)).join _ rfl) ?_
    intro r hr
    rcases List.mem_append.1 hr with hr | hr
    · exact Or.inl hr
    · simp at hr; subst hr; exact Or.inr (le_refl _)

theorem Inv.request_start_game {s s1 : State} {socket : String} {roomId : JsVal}
    {outs : List Out} (h : Inv s)
    (hstep : request_start_game s socket roomId = some (s1, outs)) : Inv s1 := by
  unfold Truco.request_start_game at hstep
  split at hstep
  · rename_i room hroom
    have hown := getProp_own hroom
    split at hstep
    · simp only [Option.some.injEq, Prod.mk.injEq] at hstep
      rw [← hstep.1]
      have hr := h.rooms_ok _ _ (ownProp_mem hown)
      refine @Inv.replace s roomId.toKey room { room with gameStarted := true } s.heap h hown
        (le_refl _) (fun r _ _ => rfl) ?_ (fun r hr => Or.inl hr)
      exact ⟨hr.id_eq, hr.keys, hr.nodup, hr.bound, hr.seat_roster, hr.roster_seat,
        hr.count_seats, hr.count_roster, hr.first⟩
    · cases hstep; exact h
  · cases hstep; exact h

theorem vacate_clients (room : Room) (client : Client) :
    (vacate room client).clients = room.clients := by
  unfold vacate; split <;> rfl

theorem vacate_gameStarted (room : Room) (client : Client) :
    (vacate room client).gameStarted = room.gameStarted := by
  unfold vacate; split <;> rfl

theorem vacate_free {heap : List Client} {key : String} {room : Room} {ref : Nat}
    {client : Client} (h : RoomInv heap key room) (hmem : ref ∈ room.clients)
    (hc : heap[ref]? = some client) {k : String} (hk : ownProp room.players k = some none) :
    ownProp (vacate room client).players k = some none := by
  unfold vacate
  split
  · rename_i hs
    have hown := h.roster_seat ref hmem client hc hs
    simp only [ownProp_setProp_seat h.keys hown none k]
    split
    · rfl
    · exact hk
  · exact hk

theorem Inv.sit_down {s s1 : State} {socket : String} {roomId slot : JsVal}
    {outs : List Out} (h : Inv s)
    (hstep : sit_down s socket roomId slot = some (s1, outs)) : Inv s1 := by
  unfold Truco.sit_down at hstep
  split at hstep
  · cases hstep; exact h
  · cases hstep
  · rename_i room hroom
    have hown := getProp_own hroom
    have hr := h.rooms_ok _ _ (ownProp_mem hown)
    split at hstep
    · rename_i hseat
      have hfree := getProp_own hseat
      split at hstep
      · cases hstep; exact h
      · rename_i ref href
        obtain ⟨hmem, hsock⟩ := find?_mem_pred href
        split at hstep
        · cases hstep; exact h
        · rename_i client hc
          obtain ⟨c1, hc1, hid⟩ := isSocket_elim hsock
          rw [hc] at hc1; cases hc1
          simp only [Option.some.injEq, Prod.mk.injEq] at hstep
          rw [← hstep.1]
          have hd : Detached s.heap roomId.toKey (vacate room client) ref := hr.detach hmem hc
          have hocc := @Detached.occupy s.heap roomId.toKey (vacate room client) ref client slot
            hd hc
            (by rw [vacate_clients, hid]; exact href) (vacate_free hr hmem hc hfree)
          refine h.replace hown (by simp) ?_ hocc ?_
          · intro r hr1 _
            exact getElem?_set_ne _ (fun e => hr1 (e ▸ hmem))
          · intro r hr1
            have hr2 : r ∈ (vacate room client).clients := hr1
            rw [vacate_clients] at hr2
            exact Or.inl hr2
    · cases hstep; exact h

theorem Inv.leave_seat {s s1 : State} {socket : String} {roomId : JsVal}
    {outs : List Out} (h : Inv s)
    (hstep : leave_seat s socket roomId = some (s1, outs)) : Inv s1 := by
  unfold Truco.leave_seat at hstep
  split at hstep
  · cases hstep; exact h
  · cases hstep
  · rename_i room hroom
    have hown := getProp_own hroom
    have hr := h.rooms_ok _ _ (ownProp_mem hown)
    split at hstep
    · cases hstep; exact h
    · rename_i ref href
      obtain ⟨hmem, _⟩ := find?_mem_pred href
      split at hstep
      · cases hstep; exact h
      · rename_i client hc
        split at hstep
        · rename_i hs
          simp only [Option.some.injEq, Prod.mk.injEq] at hstep
          rw [← hstep.1]
          have hd : Detached s.heap roomId.toKey (vacate room client) ref := hr.detach hmem hc
          have hv : vacate room client =
              { room with players := setProp room.players client.slot.toKey none,
                          playerCount := room.playerCount - 1 } := by simp [vacate, hs]
          rw [hv] at hd
          refine h.replace hown (by simp) ?_ (hd.stand hc) (fun r hr1 => Or.inl hr1)
          intro r hr1 _
          exact getElem?_set_ne _ (fun e => hr1 (e ▸ hmem))
        · cases hstep; exact h

theorem findIdx?_go {p : Nat → Bool} :
    ∀ {l : List Nat} {start i : Nat}, l.findIdx? p start = some i →
      start ≤ i ∧ l.find? p = l[i - start]? := by
  intro l
  induction l with
  | nil => intro start i h; simp [List.findIdx?] at h
  | cons b l ih =>
    intro start i h
    rw [List.findIdx?_cons] at h
    rw [List.find?_cons]
    cases hp : p b with
    | true =>
      rw [hp] at h
      simp at h; subst h; simp
    | false =>
      rw [hp] at h
      simp only [Bool.false_eq_true, if_false] at h
      obtain ⟨h1, h2⟩ := ih h
      refine ⟨by omega, ?_⟩
      have : i - start = (i - (start + 1)) + 1 := by omega
      rw [this, List.getElem?_cons_succ]
      exact h2

theorem findIdx?_getElem {p : Nat → Bool} {l : List Nat} {i : Nat}
    (h : l.findIdx? p = some i) : l.find? p = l[i]? := (findIdx?_go h).2

theorem Inv.disconnectLoop {s : State} {socket : String} (h : Inv s) :
    ∀ rest : List (String × Room), (∀ e ∈ rest, e ∈ s.rooms) →
      Inv (disconnectLoop s socket rest).1 := by
  intro rest
  induction rest with
  | nil => intro _; exact h
  | cons e rest ih =>
    intro hsub
    obtain ⟨id, room⟩ := e
    have hm : (id, room) ∈ s.rooms := hsub _ (List.mem_cons_self _ _)
    have hown : ownProp s.rooms id = some room := ownProp_of_mem h.keys_nodup hm
    have hr := h.rooms_ok _ _ hm
    simp only [Truco.disconnectLoop]
    split
    · exact ih (fun e he => hsub e (List.mem_cons_of_mem _ he))
    · rename_i clientIdx hidx
      split
      · exact h
      · rename_i client hcl
        obtain ⟨ref, href, hc⟩ := Option.bind_eq_some.1 hcl
        have hmem : ref ∈ room.clients := List.getElem?_mem href
        have hd : Detached s.heap id (vacate room client) ref := hr.detach hmem hc
        have hv : (if decide (client.slot ≠ .num (-1)) = true then
              { room with players := setProp room.players client.slot.toKey none,
                          playerCount := room.playerCount - 1 }
            else room) = vacate room client := by
          unfold vacate
          by_cases hs : client.slot = .num (-1) <;> simp [hs]
        rw [hv]
        have herase : (vacate room client).clients.eraseIdx clientIdx =
            (vacate room client).clients.erase ref := by
          rw [vacate_clients]; exact eraseIdx_eq_erase hr.nodup href
        rw [herase]
        split
        · exact h.delete id
        · refine h.replace hown (le_refl _) (fun _ _ _ => rfl) hd.remove ?_
          intro r hr1
          have hr2 : r ∈ (vacate room client).clients := List.mem_of_mem_erase hr1
          rw [vacate_clients] at hr2
          exact Or.inl hr2

/-- Every completed handler keeps the invariant. -/
theorem Inv.step {s s1 : State} {e : Event} {outs : List Out} (h : Inv s)
    (hstep : step s e = some (s1, outs)) : Inv s1 := by
  cases e with
  | connection socket => simp only [Truco.step] at hstep; cases hstep; exact h
  | create_room socket p =>
    cases p with
    | nullish => cases hstep
    | object f => simp only [Truco.step] at hstep; exact h.create_room hstep
  | join_room socket p =>
    cases p with
    | nullish => cases hstep
    | object f => simp only [Truco.step] at hstep; exact h.join_room hstep
  | sit_down socket p =>
    cases p with
    | nullish => cases hstep
    | object f => simp only [Truco.step] at hstep; exact h.sit_down hstep
  | leave_seat socket p =>
    cases p with
    | nullish => cases hstep
    | object f => simp only [Truco.step] at hstep; exact h.leave_seat hstep
  | request_start_game socket p =>
    cases p with
    | nullish => cases hstep
    | object f => simp only [Truco.step] at hstep; exact h.request_start_game hstep
  | distribuir_cartas socket data =>
    cases data with
    | nullish => cases hstep
    | object f => simp only [Truco.step, distribuir_cartas] at hstep; cases hstep; exact h
  | jogar_carta socket data =>
    simp only [Truco.step, relayBySocket] at hstep
    split at hstep <;> (cases hstep; exact h)
  | truco_action socket data =>
    simp only [Truco.step, relayBySocket] at hstep
    split at hstep <;> (cases hstep; exact h)
  | disconnect socket =>
    simp only [Truco.step, disconnect] at hstep
    have h1 := congrArg Prod.fst (Option.some.inj hstep)
    simp only at h1
    rw [← h1]
    exact h.disconnectLoop _ (fun _ he => he)

theorem Reachable.inv {s : State} (h : Reachable s) : Inv s := by
  induction h with
  | init => exact Inv.init
  | step _ hstep ih => exact ih.step hstep

theorem reachable_run : ∀ (es : List Event) {s s1 : State} {outs : List Out},
    Reachable s → run s es = some (s1, outs) → Reachable s1 := by
  intro es
  induction es with
  | nil => intro s s1 outs h hr; simp only [run] at hr; cases hr; exact h
  | cons e es ih =>
    intro s s1 outs h hr
    simp only [run] at hr
    split at hr
    · cases hr
    · rename_i s2 outs2 hstep
      split at hr
      · cases hr
      · rename_i s3 outs3 hrun
        cases hr
        exact ih (Reachable.step h hstep) hrun

theorem reachable_after (es : List Event) : Reachable (State.after es) := by
  unfold State.after
  split
  · rename_i p hp
    exact reachable_run es Reachable.init hp
  · exact Reachable.init

/-- C1: in every reachable state and every room of it, `playerCount` equals the
number of non-empty entries among seats 0..3 and equals the number of roster
entries whose slot is not `-1`. -/
theorem playerCount_eq_seats_and_roster (s : State) (hs : Reachable s) (key : String)
    (room : Room) (hroom : (key, room) ∈ s.rooms) :
    room.playerCount = (occupiedSeats room : Int) ∧
    room.playerCount = (seatedClients s.heap room : Int) :=
  ⟨(hs.inv.rooms_ok key room hroom).count_seats, (hs.inv.rooms_ok key room hroom).count_roster⟩

theorem playerCount_eq_seats_and_roster_witness :
    ∃ room, ("room_1", room) ∈ (State.after traceSeated).rooms ∧
      room.playerCount = 1 ∧
      room.playerCount = (occupiedSeats room : Int) ∧
      room.playerCount = (seatedClients (State.after traceSeated).heap room : Int) :=
  ⟨{ id := "room_1", name := "Sala 1",
     players := [("0", none), ("1", none), ("2", some 0), ("3", none)],
     playerCount := 1, clients := [0, 1], gameStarted := false },
   by decide, rfl,
   playerCount_eq_seats_and_roster (State.after traceSeated) (reachable_after traceSeated)
     "room_1" _ (by decide)⟩

/-- C2: in every reachable state and every room of it, seats and roster agree:
the object a seat holds is an entry of that room's roster whose slot names that
seat, and every roster entry whose slot is not `-1` is the object held by the
seat its slot names. -/
theorem seats_agree_with_roster (s : State) (hs : Reachable s) (key : String)
    (room : Room) (hroom : (key, room) ∈ s.rooms) :
    (∀ i r, ownProp room.players i = some (some r) →
      r ∈ room.clients ∧ ∃ p, s.heap[r]? = some p ∧ p.slot.toKey = i) ∧
    (∀ r ∈ room.clients, ∀ p, s.heap[r]? = some p → p.slot ≠ .num (-1) →
      ownProp room.players p.slot.toKey = some (some r)) :=
  ⟨(hs.inv.rooms_ok key room hroom).seat_roster, (hs.inv.rooms_ok key room hroom).roster_seat⟩

theorem seats_agree_with_roster_witness :
    ∃ room, ("room_1", room) ∈ (State.after traceSeated).rooms ∧
      ownProp room.players "2" = some (some 0) ∧
      (0 ∈ room.clients ∧
        ∃ p, (State.after traceSeated).heap[0]? = some p ∧ p.slot.toKey = "2") :=
  ⟨{ id := "room_1", name := "Sala 1",
     players := [("0", none), ("1", none), ("2", some 0), ("3", none)],
     playerCount := 1, clients := [0, 1], gameStarted := false },
   by decide, by decide,
   (seats_agree_with_roster (State.after traceSeated) (reachable_after traceSeated)
     "room_1" _ (by decide)).1 "2" 0 (by decide)⟩

/-- C3: no reachable state holds more than 10 rooms, and a `create_room`
handled while 10 rooms exist replies `room_error` to the sender alone and
leaves the state as it was. -/
theorem room_cap (s : State) :
    (Reachable s → s.rooms.length ≤ 10) ∧
    (10 ≤ s.rooms.length → ∀ (socket : String) (playerName : JsVal),
      create_room s socket playerName = some (s, [.emit (.socket socket)
        (.room_error "Limite de salas atingido (Máx 10). Aguarde uma sala esvaziar.")])) := by
  refine ⟨fun hs => hs.inv.cap, ?_⟩
  intro h socket playerName
  unfold create_room
  rw [if_pos h]

theorem room_cap_witness :
    (State.after traceTenRooms).rooms.length = 10 ∧
    create_room (State.after traceTenRooms) "B" (.str "Bia") =
      some (State.after traceTenRooms, [.emit (.socket "B")
        (.room_error "Limite de salas atingido (Máx 10). Aguarde uma sala esvaziar.")]) ∧
    (State.after (traceTenRooms ++ [.create_room "B" (.object [])])).rooms.length ≤ 10 :=
  ⟨by decide,
   (room_cap (State.after traceTenRooms)).2 (by decide) "B" (.str "Bia"),
   (room_cap (State.after (traceTenRooms ++ [.create_room "B" (.object [])]))).1
     (reachable_after _)⟩

/-- C4: with fewer than 10 rooms the id search of `create_room` ends, and the
new room gets the id `room_n` for the least positive `n` whose `room_n` is not
an active room, with `1 ≤ n ≤ 10`; every room of a reachable state is stored
under, and carries, one of the ids `room_1 .. room_10`. -/
theorem create_room_lowest_free_id (s : State) :
    (s.rooms.length < 10 → ∀ (socket : String) (playerName : JsVal),
      ∃ n, searchRoomNum s.rooms (s.rooms.length + 1) 1 = some n ∧
        1 ≤ n ∧ n ≤ 10 ∧ ownProp s.rooms (roomKey n) = none ∧
        (∀ m, 1 ≤ m → m < n → (ownProp s.rooms (roomKey m)).isSome) ∧
        create_room s socket playerName =
          some ({ s with rooms := s.rooms ++ [(roomKey n, newRoom n)] },
            [.emit (.socket socket) (.room_created (roomKey n)),
             broadcastRoomList (s.rooms ++ [(roomKey n, newRoom n)])])) ∧
    (Reachable s → ∀ key room, (key, room) ∈ s.rooms →
      ∃ n, 1 ≤ n ∧ n ≤ 10 ∧ key = roomKey n ∧ room.id = roomKey n) := by
  constructor
  · intro hlen socket playerName
    obtain ⟨n, hn⟩ := searchRoomNum_terminates hlen
    obtain ⟨h1, h2, h3, h4⟩ := searchRoomNum_some _ _ _ hn
    have hn10 : n ≤ 10 := by omega
    have hnone : ownProp s.rooms (roomKey n) = none := getProp_undefined h3
    refine ⟨n, hn, h1, hn10, hnone, ?_, ?_⟩
    · intro m hm1 hm2
      exact (getProp_roomKey hm1 (by omega)).1 (h4 m hm1 hm2)
    · unfold create_room
      rw [if_neg (by omega), hn]
      show some (({ s with rooms := setProp s.rooms (roomKey n) (newRoom n) } : State),
        [Out.emit (.socket socket) (.room_created (roomKey n)),
         broadcastRoomList (setProp s.rooms (roomKey n) (newRoom n))]) = _
      rw [setProp_new _ (roomKey_ne_proto h1 hn10) hnone]
  · intro hs key room hroom
    obtain ⟨n, h1, h2, h3⟩ := hs.inv.ids key room hroom
    exact ⟨n, h1, h2, h3, by rw [(hs.inv.rooms_ok key room hroom).id_eq]; exact h3⟩

theorem create_room_lowest_free_id_witness :
    (State.after traceFreed).rooms.map Prod.fst = ["room_1", "room_3"] ∧
    (State.after traceFreed).rooms.length < 10 ∧
    (∃ n, searchRoomNum (State.after traceFreed).rooms
          ((State.after traceFreed).rooms.length + 1) 1 = some n ∧
        1 ≤ n ∧ n ≤ 10 ∧ ownProp (State.after traceFreed).rooms (roomKey n) = none ∧
        (∀ m, 1 ≤ m → m < n → (ownProp (State.after traceFreed).rooms (roomKey m)).isSome) ∧
        create_room (State.after traceFreed) "A" .undefined =
          some ({ State.after traceFreed with
                  rooms := (State.after traceFreed).rooms ++ [(roomKey n, newRoom n)] },
            [.emit (.socket "A") (.room_created (roomKey n)),
             broadcastRoomList ((State.after traceFreed).rooms ++ [(roomKey n, newRoom n)])])) ∧
    (create_room (State.after traceFreed) "A" .undefined).map (fun p => p.2.head?) =
      some (some (.emit (.socket "A") (.room_created "room_2"))) :=
  ⟨by decide, by decide,
   (create_room_lowest_free_id (State.after traceFreed)).1 (by decide) "A" .undefined,
   by decide⟩

theorem getProp_of_own {α : Type} {o : List (String × α)} {key : String} {v : α}
    (h : ownProp o key = some v) : getProp o key = .own v := by
  simp [getProp, h]

theorem ownProp_snapshot (heap : List Client) (players : List (String × Option Nat))
    (key : String) :
    ownProp (snapshot heap players) key =
      (ownProp players key).map (fun v => v.bind (fun r => heap[r]?)) := by
  induction players with
  | nil => rfl
  | cons p players ih =>
    obtain ⟨k, v⟩ := p
    simp only [snapshot, List.map_cons, ownProp]
    split
    · rfl
    · exact ih

/-- C5: `sit_down` on a seat that already holds a participant, the sender
included, leaves the whole state as it was and sends one message, `sit_error`
to the sender; no `update_players` and no `room_list_update` is sent. -/
theorem sit_down_occupied (s : State) (socket : String) (roomId slot : JsVal) (room : Room)
    (r : Nat) (hroom : ownProp s.rooms roomId.toKey = some room)
    (hseat : ownProp room.players slot.toKey = some (some r)) :
    sit_down s socket roomId slot =
      some (s, [.emit (.socket socket) (.sit_error "Lugar ocupado!")]) := by
  unfold sit_down
  rw [getProp_of_own hroom]
  simp only
  rw [getProp_of_own hseat]

theorem sit_down_occupied_witness :
    (ownProp (State.after traceSeated).rooms (JsVal.str "room_1").toKey = some roomSeated ∧
      ownProp roomSeated.players (JsVal.num 2).toKey = some (some 0)) ∧
    sit_down (State.after traceSeated) "B" (.str "room_1") (.num 2) =
      some (State.after traceSeated, [.emit (.socket "B") (.sit_error "Lugar ocupado!")]) ∧
    sit_down (State.after traceSeated) "A" (.str "room_1") (.num 2) =
      some (State.after traceSeated, [.emit (.socket "A") (.sit_error "Lugar ocupado!")]) :=
  ⟨⟨by decide, by decide⟩,
   sit_down_occupied (State.after traceSeated) "B" (.str "room_1") (.num 2) roomSeated 0
     (by decide) (by decide),
   by decide⟩

/-- C6: in a reachable state where the sender sits at seat `seat` of a room and
the seat named by `slot` is empty, `sit_down` ends with `seat` empty, the
sender's object in the new seat, its slot set to `slot`, every other seat and
`playerCount` as before; it sends one `update_players`, carrying this final
table (sender at the new seat only), followed by the room list. -/
theorem sit_down_moves_seat (s : State) (hs : Reachable s) (socket : String)
    (roomId slot : JsVal) (room : Room) (seat : String) (ref : Nat) (client : Client)
    (hroom : ownProp s.rooms roomId.toKey = some room)
    (hseat : ownProp room.players seat = some (some ref))
    (hclient : s.heap[ref]? = some client) (hid : client.id = socket)
    (hfree : ownProp room.players slot.toKey = some none) :
    ∃ room1 : Room,
      sit_down s socket roomId slot =
        some ({ rooms := replaceOwn s.rooms roomId.toKey room1,
                heap := s.heap.set ref { client with slot := slot } },
          [.emit (.room roomId) (.update_players
              (snapshot (s.heap.set ref { client with slot := slot }) room1.players)),
           broadcastRoomList (replaceOwn s.rooms roomId.toKey room1)]) ∧
      ownProp (replaceOwn s.rooms roomId.toKey room1) roomId.toKey = some room1 ∧
      seat ≠ slot.toKey ∧ slot.toKey ∈ seatKeys ∧
      ownProp room1.players seat = some none ∧
      ownProp room1.players slot.toKey = some (some ref) ∧
      (∀ k, k ≠ seat → k ≠ slot.toKey → ownProp room1.players k = ownProp room.players k) ∧
      (s.heap.set ref { client with slot := slot })[ref]? = some { client with slot := slot } ∧
      room1.clients = room.clients ∧
      room1.playerCount = room.playerCount ∧
      ownProp (snapshot (s.heap.set ref { client with slot := slot }) room1.players) seat =
        some none ∧
      ownProp (snapshot (s.heap.set ref { client with slot := slot }) room1.players) slot.toKey =
        some (some { client with slot := slot }) := by
  have hr := hs.inv.rooms_ok _ _ (ownProp_mem hroom)
  obtain ⟨hmem, c, hc, hck⟩ := hr.seat_roster seat ref hseat
  rw [hclient] at hc; cases hc
  have hseatkey : seat ∈ seatKeys := own_key_is_seat hr.keys hseat
  have hs1 : client.slot ≠ .num (-1) := slot_ne_minus_one (hck ▸ hseatkey)
  have hfind : room.clients.find? (isSocket s.heap socket) = some ref := by
    rw [← hid]; exact hr.first ref hmem client hclient hs1
  have hne : seat ≠ slot.toKey := by
    intro e; rw [e, hfree] at hseat; cases hseat
  have hself := getElem?_set_self { client with slot := slot } hclient
  -- the seat table after `room.players[client.slot] = null`
  have hown1 : ownProp room.players client.slot.toKey = some (some ref) := by rw [hck]; exact hseat
  have hp1 : ∀ k, ownProp (setProp room.players client.slot.toKey none) k =
      if k = seat then some none else ownProp room.players k := by
    intro k; rw [ownProp_setProp_seat hr.keys hown1 none k, hck]
  have hk1 := keys_setProp_seat hr.keys hown1 none
  have hfree1 : ownProp (setProp room.players client.slot.toKey none) slot.toKey = some none := by
    rw [hp1, if_neg (Ne.symm hne)]; exact hfree
  have hp2 : ∀ k, ownProp (setProp (setProp room.players client.slot.toKey none)
      slot.toKey (some ref)) k =
      if k = slot.toKey then some (some ref)
      else if k = seat then some none else ownProp room.players k := by
    intro k; rw [ownProp_setProp_seat hk1 hfree1 (some ref) k, hp1]
  refine ⟨{ room with
      players := setProp (setProp room.players client.slot.toKey none) slot.toKey (some ref),
      playerCount := room.playerCount - 1 + 1 }, ?_, ?_, hne, own_key_is_seat hr.keys hfree,
      ?_, ?_, ?_, hself, rfl, ?_, ?_, ?_⟩
  · unfold sit_down
    rw [getProp_of_own hroom]
    simp only
    rw [getProp_of_own hfree]
    simp only
    rw [hfind]
    simp only
    rw [hclient]
    simp only [if_pos hs1]
  · rw [ownProp_replaceOwn]; simp [hroom]
  · show ownProp (setProp _ _ _) seat = _
    rw [hp2, if_neg hne, if_pos rfl]
  · show ownProp (setProp _ _ _) slot.toKey = _
    rw [hp2, if_pos rfl]
  · intro k h1 h2
    show ownProp (setProp _ _ _) k = _
    rw [hp2, if_neg h2, if_neg h1]
  · show room.playerCount - 1 + 1 = room.playerCount
    ring
  · rw [ownProp_snapshot]
    show (ownProp (setProp _ _ _) seat).map _ = _
    rw [hp2, if_neg hne, if_pos rfl]; rfl
  · rw [ownProp_snapshot]
    show (ownProp (setProp _ _ _) slot.toKey).map _ = _
    rw [hp2, if_pos rfl]
    simp [hself]

theorem sit_down_moves_seat_witness :
    (ownProp (State.after traceSeated).rooms (JsVal.str "room_1").toKey = some roomSeated ∧
     ownProp roomSeated.players "2" = some (some 0) ∧
     (State.after traceSeated).heap[0]? =
       some { id := "A", name := .str "Ana", avatarId := .num 1, slot := .num 2 } ∧
     ownProp roomSeated.players (JsVal.num 0).toKey = some none) ∧
    (sit_down (State.after traceSeated) "A" (.str "room_1") (.num 0)).map
        (fun p => (p.1.rooms, p.2.head?)) =
      some ([("room_1", { roomSeated with
                players := [("0", some 0), ("1", none), ("2", none), ("3", none)] })],
        some (.emit (.room (.str "room_1")) (.update_players
          [("0", some { id := "A", name := .str "Ana", avatarId := .num 1, slot := .num 0 }),
           ("1", none), ("2", none), ("3", none)]))) ∧
    ∃ room1 : Room,
      sit_down (State.after traceSeated) "A" (.str "room_1") (.num 0) =
        some ({ rooms := replaceOwn (State.after traceSeated).rooms (JsVal.str "room_1").toKey room1,
                heap := (State.after traceSeated).heap.set 0
                  { id := "A", name := .str "Ana", avatarId := .num 1, slot := .num 0 } },
          [.emit (.room (.str "room_1")) (.update_players
              (snapshot ((State.after traceSeated).heap.set 0
                { id := "A", name := .str "Ana", avatarId := .num 1, slot := .num 0 })
                room1.players)),
           broadcastRoomList
             (replaceOwn (State.after traceSeated).rooms (JsVal.str "room_1").toKey room1)]) ∧
      ownProp room1.players "2" = some none ∧
      ownProp room1.players (JsVal.num 0).toKey = some (some 0) ∧
      room1.playerCount = roomSeated.playerCount := by
  refine ⟨⟨by decide, by decide, by decide, by decide⟩, by decide, ?_⟩
  obtain ⟨room1, h1, _, _, _, h2, h3, _, _, _, h4, _, _⟩ :=
    sit_down_moves_seat (State.after traceSeated) (reachable_after traceSeated) "A"
      (.str "room_1") (.num 0) roomSeated "2" 0
      { id := "A", name := .str "Ana", avatarId := .num 1, slot := .num 2 }
      (by decide) (by decide) (by decide) rfl (by decide)
  exact ⟨room1, h1, h2, h3, h4⟩

theorem seatHolder_elim {heap : List Client} {room : Room} {key : String} {p : Client}
    (h : seatHolder heap room key = some p) :
    ∃ r, ownProp room.players key = some (some r) ∧ heap[r]? = some p := by
  unfold seatHolder at h
  split at h
  · rename_i r hr
    exact ⟨r, hr, h⟩
  · cases h

/-- C7: in every reachable state and every room of it, at most one seat holds
a participant with a given connection handle, however often that handle has
sent `join_room`. -/
theorem one_seat_per_handle (s : State) (hs : Reachable s) (key : String) (room : Room)
    (hroom : (key, room) ∈ s.rooms) (h : String) (i j : String) (p q : Client)
    (hi : seatHolder s.heap room i = some p) (hj : seatHolder s.heap room j = some q)
    (hp : p.id = h) (hq : q.id = h) : i = j := by
  have hr := hs.inv.rooms_ok key room hroom
  obtain ⟨r1, ho1, hc1⟩ := seatHolder_elim hi
  obtain ⟨r2, ho2, hc2⟩ := seatHolder_elim hj
  obtain ⟨hm1, c1, hh1, hk1⟩ := hr.seat_roster i r1 ho1
  obtain ⟨hm2, c2, hh2, hk2⟩ := hr.seat_roster j r2 ho2
  rw [hc1] at hh1; cases hh1
  rw [hc2] at hh2; cases hh2
  have hs1 : p.slot ≠ .num (-1) := slot_ne_minus_one (hk1 ▸ own_key_is_seat hr.keys ho1)
  have hs2 : q.slot ≠ .num (-1) := slot_ne_minus_one (hk2 ▸ own_key_is_seat hr.keys ho2)
  have hf1 := hr.first r1 hm1 p hc1 hs1
  have hf2 := hr.first r2 hm2 q hc2 hs2
  rw [hp] at hf1
  rw [hq, hf1] at hf2
  cases hf2
  rw [hc1] at hc2; cases hc2
  rw [← hk1, ← hk2]

theorem one_seat_per_handle_witness :
    rosterHandles (State.after traceJoinedTwice) = [("room_1", ["A", "A"])] ∧
    ("room_1", roomJoinedTwice) ∈ (State.after traceJoinedTwice).rooms ∧
    seatHolder (State.after traceJoinedTwice).heap roomJoinedTwice "0" =
      some { id := "A", name := .str "Ana", avatarId := .num 1, slot := .num 0 } ∧
    ("0" : String) = "0" :=
  ⟨by decide, by decide, by decide,
   one_seat_per_handle (State.after traceJoinedTwice) (reachable_after traceJoinedTwice)
     "room_1" roomJoinedTwice (by decide) "A" "0" "0"
     { id := "A", name := .str "Ana", avatarId := .num 1, slot := .num 0 }
     { id := "A", name := .str "Ana", avatarId := .num 1, slot := .num 0 }
     (by decide) (by decide) rfl rfl⟩

/-- C8, as the code runs: `join_room` adds a roster entry without looking for
one of the same connection, so a second `join_room` leaves two entries of one
handle in a roster, a `join_room` for another room leaves the handle in two
rooms, and the `disconnect` of that connection, which stops at the first entry
it finds, leaves the other entry behind. -/
theorem join_room_repeats_roster_entry :
    rosterHandles (State.after (traceJoinedTwice.take 3)) = [("room_1", ["A", "A"])] ∧
    rosterHandles (State.after traceTwoRooms) = [("room_1", ["A"]), ("room_2", ["A"])] ∧
    rosterHandles (State.after (traceJoinedTwice.take 3 ++ [.disconnect "A"])) =
      [("room_1", ["A"])] ∧
    rosterHandles (State.after (traceTwoRooms ++ [.disconnect "A"])) = [("room_2", ["A"])] := by
  decide

/-- C9, against the claim as written: after four players sat down, the game
was started and one of them left the seat, three are seated and
`request_start_game` emits nothing and changes nothing, yet the flag of the
room is `true` afterwards. -/
theorem request_start_game_flag_stays_true :
    Reachable (State.after traceLeft) ∧
    countOf (State.after traceLeft) "room_1" = some 3 ∧
    request_start_game (State.after traceLeft) "B" (.str "room_1") =
      some (State.after traceLeft, []) ∧
    (request_start_game (State.after traceLeft) "B" (.str "room_1")).map
        (fun p => startedFlag p.1 "room_1") = some (some true) :=
  ⟨reachable_after traceLeft, by decide, by decide, by decide⟩

/-- C9, amended: `request_start_game` sets the flag of the room to `true` and
emits `remote_game_start` to the room exactly when the room exists and its
`playerCount` is 4; in every other case it emits nothing and leaves the state,
the flag included, as it was. -/
theorem request_start_game_iff (s : State) (socket : String) (roomId : JsVal) :
    (∀ room, ownProp s.rooms roomId.toKey = some room → room.playerCount = 4 →
      request_start_game s socket roomId =
        some ({ rooms := replaceOwn s.rooms roomId.toKey { room with gameStarted := true },
                heap := s.heap },
          [.emit (.room roomId) .remote_game_start]) ∧
      startedFlag
          { rooms := replaceOwn s.rooms roomId.toKey { room with gameStarted := true },
            heap := s.heap } roomId.toKey =
        some true) ∧
    ((∀ room, ownProp s.rooms roomId.toKey = some room → room.playerCount ≠ 4) →
      request_start_game s socket roomId = some (s, [])) := by
  constructor
  · intro room hroom hcount
    constructor
    · unfold request_start_game
      rw [getProp_of_own hroom]
      simp only [if_pos hcount]
    · simp [startedFlag, ownProp_replaceOwn, hroom]
  · intro hno
    unfold request_start_game
    split
    · rename_i room hroom
      rw [if_neg (hno room (getProp_own hroom))]
    · rfl

theorem request_start_game_iff_witness :
    (countOf (State.after traceFour) "room_1" = some 4 ∧
     startedFlag (State.after traceFour) "room_1" = some false ∧
     startedFlag (State.after traceStarted) "room_1" = some true) ∧
    (∃ room, ownProp (State.after traceFour).rooms (JsVal.str "room_1").toKey = some room ∧
      request_start_game (State.after traceFour) "C" (.str "room_1") =
        some ({ rooms := replaceOwn (State.after traceFour).rooms (JsVal.str "room_1").toKey
                           { room with gameStarted := true },
                heap := (State.after traceFour).heap },
          [.emit (.room (.str "room_1")) .remote_game_start])) ∧
    request_start_game (State.after traceSeated) "A" (.str "room_1") =
      some (State.after traceSeated, []) :=
  ⟨by decide,
   ⟨{ id := "room_1", name := "Sala 1",
      players := [("0", some 0), ("1", some 1), ("2", some 2), ("3", some 3)],
      playerCount := 4, clients := [0, 1, 2, 3], gameStarted := false },
    by decide,
    ((request_start_game_iff (State.after traceFour) "C" (.str "room_1")).1 _
      (by decide) rfl).1⟩,
   (request_start_game_iff (State.after traceSeated) "A" (.str "room_1")).2 (by decide)⟩

/-- C10, as the code runs: in the started room of `traceStarted`, where `A`
sits at seat 0, `leave_seat` by `A` emits a `player_disco` whose slot field is
`-1`, the value `client.slot` has after the seat was given up, while the
`disconnect` of `A` in the same state emits it with slot 0. -/
theorem leave_seat_player_disco_slot :
    seatHolder (State.after traceStarted).heap
        { id := "room_1", name := "Sala 1",
          players := [("0", some 0), ("1", some 1), ("2", some 2), ("3", some 3)],
          playerCount := 4, clients := [0, 1, 2, 3], gameStarted := true } "0" =
      some { id := "A", name := .str "Ana", avatarId := .num 1, slot := .num 0 } ∧
    startedFlag (State.after traceStarted) "room_1" = some true ∧
    (step (State.after traceStarted) (.leave_seat "A" (inRoom "room_1"))).map
        (fun p => (p.2.length, p.2.getLast?)) =
      some (3, some (.emit (.room (.str "room_1")) (.player_disco (.num (-1)) (.str "Ana")))) ∧
    (step (State.after traceStarted) (.disconnect "A")).map (fun p => p.2.drop 1) =
      some [.emit (.room (.str "room_1")) (.player_disco (.num 0) (.str "Ana")),
            .emit .all (.room_list_update
              [{ id := "room_1", name := "Sala 1", count := 3, full := false }])] := by
  decide

theorem disconnectLoop_skip (s : State) (socket : String) :
    ∀ (pre rest : List (String × Room)),
      (∀ e ∈ pre, hasEntry s.heap socket e.2 = false) →
      disconnectLoop s socket (pre ++ rest) = disconnectLoop s socket rest := by
  intro pre
  induction pre with
  | nil => intro rest _; rfl
  | cons e pre ih =>
    intro rest h
    obtain ⟨id, room⟩ := e
    have h1 : room.clients.findIdx? (isSocket s.heap socket) = none := by
      rw [List.findIdx?_eq_none_iff]
      have := h (id, room) (List.mem_cons_self _ _)
      simpa [hasEntry] using this
    simp only [List.cons_append, disconnectLoop, h1]
    exact ih rest (fun e he => h e (List.mem_cons_of_mem _ he))

theorem disconnectLoop_none (s : State) (socket : String) (rest : List (String × Room))
    (h : ∀ e ∈ rest, hasEntry s.heap socket e.2 = false) :
    disconnectLoop s socket rest = (s, []) := by
  have := disconnectLoop_skip s socket rest [] h
  simpa [disconnectLoop] using this

theorem disconnectLoop_found (s : State) (socket : String) (id : String) (room : Room)
    (post : List (String × Room)) {clientIdx ref : Nat} {client : Client}
    (hidx : room.clients.findIdx? (isSocket s.heap socket) = some clientIdx)
    (href : room.clients[clientIdx]? = some ref) (hc : s.heap[ref]? = some client) :
    disconnectLoop s socket ((id, room) :: post) = removeClient s id room clientIdx client := by
  simp only [disconnectLoop, hidx, href, Option.some_bind, hc, removeClient]

/-- The index `findIdx?` returns and the element `find?` returns go together. -/
theorem find?_findIdx? {p : Nat → Bool} {l : List Nat} {a : Nat} (h : l.find? p = some a) :
    ∃ i, l.findIdx? p = some i ∧ l[i]? = some a := by
  cases hi : l.findIdx? p with
  | none =>
    rw [List.findIdx?_eq_none_iff] at hi
    obtain ⟨hm, hp⟩ := find?_mem_pred h
    rw [hi a hm] at hp; cases hp
  | some i =>
    refine ⟨i, rfl, ?_⟩
    rw [← findIdx?_getElem hi, h]

theorem findIdx?_find? {p : Nat → Bool} {l : List Nat} {i : Nat} (h : l.findIdx? p = some i) :
    ∃ a, l[i]? = some a ∧ l.find? p = some a ∧ p a = true := by
  have h1 := findIdx?_getElem h
  cases hf : l.find? p with
  | none =>
    rw [List.find?_eq_none] at hf
    have : l.findIdx? p = none := by
      rw [List.findIdx?_eq_none_iff]
      intro x hx
      simpa using hf x hx
    rw [this] at h; cases h
  | some a => exact ⟨a, by rw [← h1, hf], rfl, List.find?_some hf⟩

/-- What the `disconnect` loop does: nothing when no room has an entry of the
socket; otherwise it handles the first room that has one, at the first entry. -/
theorem disconnectLoop_cases (s : State) (socket : String) :
    ∀ rest : List (String × Room),
      ((∀ e ∈ rest, hasEntry s.heap socket e.2 = false) ∧
        disconnectLoop s socket rest = (s, [])) ∨
      (∃ pre id room post clientIdx ref,
        rest = pre ++ (id, room) :: post ∧
        (∀ e ∈ pre, hasEntry s.heap socket e.2 = false) ∧
        room.clients.findIdx? (isSocket s.heap socket) = some clientIdx ∧
        room.clients[clientIdx]? = some ref ∧
        room.clients.find? (isSocket s.heap socket) = some ref ∧
        ∃ client, s.heap[ref]? = some client ∧ client.id = socket ∧
          disconnectLoop s socket rest = removeClient s id room clientIdx client) := by
  intro rest
  induction rest with
  | nil => left; exact ⟨fun e he => (by cases he), rfl⟩
  | cons e rest ih =>
    obtain ⟨id, room⟩ := e
    cases hidx : room.clients.findIdx? (isSocket s.heap socket) with
    | none =>
      have hno : hasEntry s.heap socket room = false := by
        rw [List.findIdx?_eq_none_iff] at hidx
        simpa [hasEntry] using hidx
      have hskip : disconnectLoop s socket ((id, room) :: rest) = disconnectLoop s socket rest :=
        disconnectLoop_skip s socket [(id, room)] rest (by
          intro e he; simp at he; subst he; exact hno)
      rcases ih with ⟨h1, h2⟩ | ⟨pre, id1, room1, post, ci, ref, h1, h2, h3, h4, h5, c, h6, h7, h8⟩
      · left
        refine ⟨?_, by rw [hskip, h2]⟩
        intro e he
        rcases List.mem_cons.1 he with he | he
        · subst he; exact hno
        · exact h1 e he
      · right
        refine ⟨(id, room) :: pre, id1, room1, post, ci, ref, by rw [h1]; rfl, ?_, h3, h4, h5,
          c, h6, h7, by rw [hskip, h8]⟩
        intro e he
        rcases List.mem_cons.1 he with he | he
        · subst he; exact hno
        · exact h2 e he
    | some clientIdx =>
      right
      obtain ⟨ref, href, hfind, hp⟩ := findIdx?_find? hidx
      obtain ⟨client, hc, hid⟩ := isSocket_elim hp
      exact ⟨[], id, room, rest, clientIdx, ref, rfl, fun e he => (by cases he), hidx, href, hfind,
        client, hc, hid, disconnectLoop_found s socket id room rest hidx href hc⟩

/-- C13: when the socket has no roster entry in any room, `disconnect` leaves
the state as it was and sends no message. -/
theorem disconnect_without_entry (s : State) (socket : String)
    (h : ∀ key room, (key, room) ∈ s.rooms → ∀ r ∈ room.clients, ∀ c, s.heap[r]? = some c →
      c.id ≠ socket) :
    disconnect s socket = some (s, []) ∧ step s (.disconnect socket) = some (s, []) := by
  have h1 : disconnect s socket = some (s, []) := by
    unfold disconnect
    rw [disconnectLoop_none s socket s.rooms]
    intro e he
    obtain ⟨key, room⟩ := e
    simp only [hasEntry, List.any_eq_false]
    intro r hr
    cases hc : s.heap[r]? with
    | none => simp [isSocket, hc]
    | some c => simpa [isSocket, hc] using h key room he r hr c hc
  exact ⟨h1, h1⟩

theorem disconnect_without_entry_witness :
    (∀ key room, (key, room) ∈ (State.after traceSeated).rooms → ∀ r ∈ room.clients,
      ∀ c, (State.after traceSeated).heap[r]? = some c → c.id ≠ "Z") ∧
    disconnect (State.after traceSeated) "Z" = some (State.after traceSeated, []) ∧
    disconnect State.init "A" = some (State.init, []) := by
  have h : ∀ key room, (key, room) ∈ (State.after traceSeated).rooms → ∀ r ∈ room.clients,
      ∀ c, (State.after traceSeated).heap[r]? = some c → c.id ≠ "Z" := by
    intro key room hm r hr c hc
    have hm1 : (key, room) ∈ [("room_1", roomSeated)] := by
      have e : (State.after traceSeated).rooms = [("room_1", roomSeated)] := by decide
      rw [← e]; exact hm
    simp only [List.mem_singleton, Prod.mk.injEq] at hm1
    obtain ⟨_, rfl⟩ := hm1
    have hr1 : r = 0 ∨ r = 1 := by simpa [roomSeated] using hr
    rcases hr1 with rfl | rfl
    · have e : (State.after traceSeated).heap[0]? =
          some { id := "A", name := .str "Ana", avatarId := .num 1, slot := .num 2 } := by decide
      rw [e] at hc; cases hc; decide
    · have e : (State.after traceSeated).heap[1]? =
          some { id := "B", name := .str "Bia", avatarId := .num 1, slot := .num (-1) } := by decide
      rw [e] at hc; cases hc; decide
  exact ⟨h, (disconnect_without_entry (State.after traceSeated) "Z" h).1,
    (disconnect_without_entry State.init "A" (by intro key room hm; cases hm)).1⟩

theorem mem_entriesOf {s : State} {socket : String} {key : String} {room : Room} {r : Nat}
    (hroom : (key, room) ∈ s.rooms) (hr : r ∈ room.clients)
    (hp : isSocket s.heap socket r = true) : r ∈ entriesOf s socket := by
  unfold entriesOf
  rw [List.mem_flatten]
  exact ⟨_, List.mem_map_of_mem _ hroom, List.mem_filter.2 ⟨hr, hp⟩⟩

/-- In a state that keeps the invariant, `disconnect` of a socket whose first
roster entry in room `key` is `ref`, and which has no entry in a room listed
before, takes that entry out. -/
theorem disconnect_at {s : State} (hinv : Inv s) {socket key : String} {room : Room}
    {ref : Nat} {client : Client} (hroom : (key, room) ∈ s.rooms)
    (hfind : room.clients.find? (isSocket s.heap socket) = some ref)
    (hc : s.heap[ref]? = some client)
    (honly : ∀ k1 room1, (k1, room1) ∈ s.rooms → k1 ≠ key → hasEntry s.heap socket room1 = false) :
    ∃ clientIdx, room.clients[clientIdx]? = some ref ∧
      disconnectLoop s socket s.rooms = removeClient s key room clientIdx client := by
  obtain ⟨idx, hidx, href⟩ := find?_findIdx? hfind
  obtain ⟨pre, post, hsplit⟩ := List.append_of_mem hroom
  have hnd := hinv.keys_nodup
  rw [hsplit, List.map_append, List.nodup_append] at hnd
  have hpre : ∀ e ∈ pre, hasEntry s.heap socket e.2 = false := by
    intro e he
    apply honly e.1 e.2 (by rw [hsplit]; exact List.mem_append_left _ he)
    intro hk
    exact hnd.2.2 (List.mem_map_of_mem Prod.fst he) (by rw [hk]; simp)
  refine ⟨idx, href, ?_⟩
  rw [hsplit, disconnectLoop_skip s socket pre _ hpre]
  exact disconnectLoop_found s socket key room post hidx href hc

/-- C11: in a reachable state where the socket has one roster entry in all, seated
at seat `seat` of a room, `disconnect` clears that seat, lowers the room's
`playerCount` by one and takes the entry out of the roster (deleting the room
when the roster is then empty); it sends `update_players` with the cleared
table, then, only if the room's started flag is set, `player_disco` with the
slot of that seat and the entry's name, then the room list. -/
theorem disconnect_seated (s : State) (hs : Reachable s) (socket key seat : String)
    (room : Room) (ref : Nat) (client : Client)
    (hroom : (key, room) ∈ s.rooms)
    (hseat : ownProp room.players seat = some (some ref))
    (hclient : s.heap[ref]? = some client) (hid : client.id = socket)
    (honly : entriesOf s socket = [ref]) :
    client.slot.toKey = seat ∧
    ownProp (roomWithout room seat ref).players seat = some none ∧
    (∀ k, k ≠ seat → ownProp (roomWithout room seat ref).players k = ownProp room.players k) ∧
    (roomWithout room seat ref).playerCount = room.playerCount - 1 ∧
    ref ∉ (roomWithout room seat ref).clients ∧
    disconnect s socket =
      some ({ s with rooms := roomsWithout s.rooms key room seat ref },
        [.emit (.room (.str key))
            (.update_players (snapshot s.heap (roomWithout room seat ref).players))] ++
        (if room.gameStarted then
          [.emit (.room (.str key)) (.player_disco client.slot client.name)]
         else []) ++
        [broadcastRoomList (roomsWithout s.rooms key room seat ref)]) := by
  have hinv := hs.inv
  have hr := hinv.rooms_ok key room hroom
  obtain ⟨hmem, c, hc, hck⟩ := hr.seat_roster seat ref hseat
  rw [hclient] at hc; cases hc
  have hs1 : client.slot ≠ .num (-1) :=
    slot_ne_minus_one (hck ▸ own_key_is_seat hr.keys hseat)
  have hfind : room.clients.find? (isSocket s.heap socket) = some ref := by
    rw [← hid]; exact hr.first ref hmem client hclient hs1
  have hother : ∀ k1 room1, (k1, room1) ∈ s.rooms → k1 ≠ key →
      hasEntry s.heap socket room1 = false := by
    intro k1 room1 hm hk
    cases hh : hasEntry s.heap socket room1 with
    | false => rfl
    | true =>
      exfalso
      simp only [hasEntry, List.any_eq_true] at hh
      obtain ⟨r, hr1, hp⟩ := hh
      have hin := mem_entriesOf hm hr1 hp
      rw [honly, List.mem_singleton] at hin
      subst hin
      exact hk (hinv.disjoint k1 room1 key room hm hroom r hr1 hmem)
  obtain ⟨idx, href, hloop⟩ := disconnect_at hinv hroom hfind hclient hother
  have herase : room.clients.eraseIdx idx = room.clients.erase ref :=
    eraseIdx_eq_erase hr.nodup href
  have hp : ∀ k, ownProp (setProp room.players seat none) k =
      if k = seat then some none else ownProp room.players k :=
    fun k => ownProp_setProp_seat hr.keys hseat none k
  refine ⟨hck, ?_, ?_, rfl, ?_, ?_⟩
  · show ownProp (setProp room.players seat none) seat = _
    rw [hp, if_pos rfl]
  · intro k hk
    show ownProp (setProp room.players seat none) k = _
    rw [hp, if_neg hk]
  · show ref ∉ room.clients.erase ref
    exact fun h => (List.Nodup.mem_erase_iff hr.nodup).1 h |>.1 rfl
  · unfold disconnect
    rw [hloop]
    simp only [removeClient, hs1, ne_eq, not_false_eq_true, decide_True, if_true, herase, hck,
      roomsWithout, roomWithout]

theorem disconnect_seated_witness :
    (("room_1", roomStarted) ∈ (State.after traceStarted).rooms ∧
     ownProp roomStarted.players "0" = some (some 0) ∧
     entriesOf (State.after traceStarted) "A" = [0]) ∧
    (roomWithout roomStarted "0" 0).players =
      [("0", none), ("1", some 1), ("2", some 2), ("3", some 3)] ∧
    (disconnect (State.after traceStarted) "A").map (fun p => p.2.take 2) =
      some [.emit (.room (.str "room_1")) (.update_players
              (snapshot (State.after traceStarted).heap (roomWithout roomStarted "0" 0).players)),
            .emit (.room (.str "room_1")) (.player_disco (.num 0) (.str "Ana"))] ∧
    disconnect (State.after traceStarted) "A" =
      some ({ State.after traceStarted with
              rooms := roomsWithout (State.after traceStarted).rooms "room_1" roomStarted "0" 0 },
        [.emit (.room (.str "room_1")) (.update_players
            (snapshot (State.after traceStarted).heap (roomWithout roomStarted "0" 0).players))] ++
        (if roomStarted.gameStarted then
          [.emit (.room (.str "room_1")) (.player_disco (.num 0) (.str "Ana"))]
         else []) ++
        [broadcastRoomList
          (roomsWithout (State.after traceStarted).rooms "room_1" roomStarted "0" 0)]) :=
  ⟨⟨by decide, by decide, by decide⟩, by decide, by decide,
   (disconnect_seated (State.after traceStarted) (reachable_after traceStarted) "A" "room_1" "0"
     roomStarted 0 { id := "A", name := .str "Ana", avatarId := .num 1, slot := .num 0 }
     (by decide) (by decide) (by decide) rfl (by decide)).2.2.2.2.2⟩

theorem ownProp_deleteProp {α : Type} (o : List (String × α)) (key key1 : String) :
    ownProp (deleteProp o key) key1 = if key1 = key then none else ownProp o key1 := by
  induction o with
  | nil => simp [deleteProp, ownProp]
  | cons p o ih =>
    obtain ⟨k, v⟩ := p
    unfold deleteProp at ih ⊢
    by_cases hk : k = key
    · subst hk
      simp only [List.filter_cons, ne_eq, not_true_eq_false, decide_False, Bool.false_eq_true,
        if_false, ih, ownProp]
      by_cases h1 : k = key1
      · subst h1; simp
      · have : ¬ key1 = k := fun e => h1 e.symm
        simp [h1, this]
    · simp only [List.filter_cons, ne_eq, hk, not_false_eq_true, decide_True, if_true, ownProp, ih]
      by_cases h1 : k = key1
      · subst h1; simp [hk]
      · simp [h1]

theorem listedIds_append (a b : List Out) : listedIds (a ++ b) = listedIds a ++ listedIds b := by
  induction a with
  | nil => rfl
  | cons x a ih =>
    cases x with
    | join _ _ => simpa [listedIds] using ih
    | emit t body => cases body <;> simp [listedIds, ih]

theorem listedIds_broadcast (rooms : List (String × Room)) :
    listedIds [broadcastRoomList rooms] = rooms.map Prod.fst := by
  simp [listedIds, broadcastRoomList, Function.comp_def]

theorem listedIds_removeClient (s : State) (id : String) (room : Room) (clientIdx : Nat)
    (client : Client) :
    listedIds (removeClient s id room clientIdx client).2 =
      (removeClient s id room clientIdx client).1.rooms.map Prod.fst := by
  simp only [removeClient, listedIds_append, listedIds_broadcast]
  split
  · split <;> simp [listedIds]
  · simp [listedIds]

theorem removeClient_state (s : State) (id : String) (room : Room) (clientIdx : Nat)
    (client : Client) :
    (removeClient s id room clientIdx client).1 =
      { rooms :=
          if (room.clients.eraseIdx clientIdx).length = 0 then deleteProp s.rooms id
          else replaceOwn s.rooms id
            { vacate room client with clients := room.clients.eraseIdx clientIdx },
        heap := s.heap } := by
  unfold removeClient vacate
  by_cases hs : client.slot = .num (-1) <;> simp [hs]

theorem removeClient_last (s : State) (id : String) (room : Room) (clientIdx : Nat)
    (client : Client) :
    (removeClient s id room clientIdx client).2.getLast? =
      some (broadcastRoomList (removeClient s id room clientIdx client).1.rooms) := by
  simp [removeClient]

/-- C12: in a reachable state, when a room had roster entries before a
`disconnect` and would have none after it, the room is no longer in the
directory after that event, its id is unused (the lookup the id search of
`create_room` makes is `undefined`), and the `room_list_update` that ends the
event's messages does not list it. -/
theorem disconnect_deletes_emptied_room (s : State) (hs : Reachable s) (socket : String)
    (s1 : State) (outs : List Out) (hstep : step s (.disconnect socket) = some (s1, outs))
    (key : String) (room : Room) (hroom : (key, room) ∈ s.rooms) (hhad : room.clients ≠ [])
    (hlast : ∀ room1, ownProp s1.rooms key = some room1 → room1.clients = []) :
    ownProp s1.rooms key = none ∧ getProp s1.rooms key = .undefined ∧
    key ∉ s1.rooms.map Prod.fst ∧
    outs.getLast? = some (broadcastRoomList s1.rooms) ∧ key ∉ listedIds outs := by
  have hinv := hs.inv
  have hown : ownProp s.rooms key = some room := ownProp_of_mem hinv.keys_nodup hroom
  simp only [step, disconnect, Option.some.injEq] at hstep
  rcases disconnectLoop_cases s socket s.rooms with ⟨_, h2⟩ |
    ⟨pre, id, room0, post, idx, ref, h1, _, h3, h4, _, client, _, _, h8⟩
  · rw [h2] at hstep
    cases hstep
    exact absurd (hlast room hown) hhad
  · rw [h8] at hstep
    have hm0 : (id, room0) ∈ s.rooms := by rw [h1]; simp
    have hown0 : ownProp s.rooms id = some room0 := ownProp_of_mem hinv.keys_nodup hm0
    have hlist := listedIds_removeClient s id room0 idx client
    have hrooms : s1.rooms = (removeClient s id room0 idx client).1.rooms := by rw [hstep]
    have houts : outs = (removeClient s id room0 idx client).2 := by rw [hstep]
    have hnone : ownProp s1.rooms key = none := by
      cases hv : ownProp s1.rooms key with
      | none => rfl
      | some room1 =>
        exfalso
        have hempty := hlast room1 hv
        rw [hrooms, removeClient_state] at hv
        simp only at hv
        split at hv
        · rw [ownProp_deleteProp] at hv
          split at hv
          · cases hv
          · rw [hown] at hv; cases hv; exact hhad hempty
        · rename_i hlen
          rw [ownProp_replaceOwn] at hv
          split at hv
          · cases hv
            have hempty1 : room0.clients.eraseIdx idx = [] := hempty
            exact hlen (by rw [hempty1]; rfl)
          · rw [hown] at hv; cases hv; exact hhad hempty
    have hnotin : key ∉ s1.rooms.map Prod.fst := by
      intro hk
      obtain ⟨⟨k0, room1⟩, hm, hk0⟩ := List.mem_map.1 hk
      simp only at hk0; subst hk0
      have hinv1 : Inv s1 := by
        have e : s1 = (disconnectLoop s socket s.rooms).1 := by rw [h8, hstep]
        rw [e]; exact hinv.disconnectLoop s.rooms (fun _ he => he)
      rw [ownProp_of_mem hinv1.keys_nodup hm] at hnone
      cases hnone
    obtain ⟨n, hn1, hn2, hn3⟩ := hinv.ids key room hroom
    refine ⟨hnone, ?_, hnotin, ?_, ?_⟩
    · have hni : key ∉ objectPrototypeKeys := hn3 ▸ roomKey_not_inherited hn1 hn2
      simp only [getProp, hnone, if_neg hni]
    · rw [houts, hrooms]
      exact removeClient_last s id room0 idx client
    · rw [houts, hlist, ← hrooms]
      exact hnotin

theorem disconnect_deletes_emptied_room_witness :
    (("room_2", { newRoom 2 with clients := [0] }) ∈ (State.after traceAlone).rooms ∧
     step (State.after traceAlone) (.disconnect "B") =
       some (State.after (traceAlone ++ [.disconnect "B"]),
         [.emit .all (.room_list_update
           [{ id := "room_1", name := "Sala 1", count := 0, full := false },
            { id := "room_3", name := "Sala 3", count := 0, full := false }])])) ∧
    (ownProp (State.after (traceAlone ++ [.disconnect "B"])).rooms "room_2" = none ∧
     getProp (State.after (traceAlone ++ [.disconnect "B"])).rooms "room_2" = .undefined ∧
     "room_2" ∉ (State.after (traceAlone ++ [.disconnect "B"])).rooms.map Prod.fst ∧
     [Out.emit .all (.room_list_update
           [{ id := "room_1", name := "Sala 1", count := 0, full := false },
            { id := "room_3", name := "Sala 3", count := 0, full := false }])].getLast? =
       some (broadcastRoomList (State.after (traceAlone ++ [.disconnect "B"])).rooms) ∧
     "room_2" ∉ listedIds [Out.emit .all (.room_list_update
           [{ id := "room_1", name := "Sala 1", count := 0, full := false },
            { id := "room_3", name := "Sala 3", count := 0, full := false }])]) :=
  ⟨⟨by decide, by decide⟩,
   disconnect_deletes_emptied_room (State.after traceAlone) (reachable_after traceAlone)
    "B" (State.after (traceAlone ++ [.disconnect "B"]))
    [.emit .all (.room_list_update
      [{ id := "room_1", name := "Sala 1", count := 0, full := false },
       { id := "room_3", name := "Sala 3", count := 0, full := false }])]
    (by decide) "room_2" { newRoom 2 with clients := [0] } (by decide) (by decide)
    (by
      intro room1 h1
      have e : ownProp (State.after (traceAlone ++ [.disconnect "B"])).rooms "room_2" = none := by
        decide
      rw [e] at h1; cases h1)⟩

/-- C14, as the code runs: `disconnect` takes out one roster entry, the first
of the first room that has one, and stops.  After `A` joined `room_1` twice,
or joined and sat down in `room_1` and `room_2`, the `disconnect` of `A` leaves
an entry of `A` in a roster, and in the second run leaves `A` in seat 1 of
`room_2`. -/
theorem disconnect_leaves_other_entries :
    rosterHandles (State.after (traceJoinedTwice.take 3 ++ [.disconnect "A"])) =
      [("room_1", ["A"])] ∧
    rosterHandles (State.after (traceTwoSeats ++ [.disconnect "A"])) = [("room_2", ["A"])] ∧
    seatHandles (State.after (traceTwoSeats ++ [.disconnect "A"])) =
      [("room_2", [("0", none), ("1", some "A"), ("2", none), ("3", none)])] := by
  decide

/-- C15, against the claim as written: `distribuir_cartas` sent by `A`, a member
of `room_1`, with `roomId` `room_2` is passed on under its own name, without
the `remote_` prefix, to the room the payload names; sent without payload its
handler throws; and `jogar_carta` from `A`, who joined `room_1` and `room_2`,
goes to `room_1` only. -/
theorem relay_not_uniform :
    rosterHandles (State.after traceSeated) = [("room_1", ["A", "B"])] ∧
    step (State.after traceSeated) (.distribuir_cartas "A" (inRoom "room_2")) =
      some (State.after traceSeated,
        [.emit (.roomExcept (.str "room_2") "A") (.relay "distribuir_cartas" (inRoom "room_2"))]) ∧
    step (State.after traceSeated) (.distribuir_cartas "A" .nullish) = none ∧
    rosterHandles (State.after traceTwoRooms) = [("room_1", ["A"]), ("room_2", ["A"])] ∧
    step (State.after traceTwoRooms) (.jogar_carta "A" (inRoom "room_2")) =
      some (State.after traceTwoRooms,
        [.emit (.roomExcept (.str "room_1") "A")
          (.relay "remote_jogar_carta" (inRoom "room_2"))]) := by
  decide

theorem getRoomBySocket_unique {s : State} (hinv : Inv s) {socket key : String} {room : Room}
    (hroom : (key, room) ∈ s.rooms) (hmember : hasEntry s.heap socket room = true)
    (honly : ∀ k1 room1, (k1, room1) ∈ s.rooms → hasEntry s.heap socket room1 = true → k1 = key) :
    getRoomBySocket s socket = some room := by
  have hpred : ∀ p : String × Room,
      (p.2.clients.find? (isSocket s.heap socket)).isSome = hasEntry s.heap socket p.2 := by
    intro p
    simp only [hasEntry]
    cases hf : p.2.clients.find? (isSocket s.heap socket) with
    | none =>
      rw [List.find?_eq_none] at hf
      symm
      simpa [List.any_eq_false] using hf
    | some a =>
      obtain ⟨hm, hp⟩ := find?_mem_pred hf
      symm
      simpa [List.any_eq_true] using ⟨a, hm, hp⟩
  unfold getRoomBySocket
  cases hf : s.rooms.find? (fun p => (p.2.clients.find? (isSocket s.heap socket)).isSome) with
  | none =>
    rw [List.find?_eq_none] at hf
    have := hf (key, room) hroom
    rw [hpred] at this
    exact absurd hmember this
  | some p =>
    obtain ⟨hm, hp⟩ := find?_mem_pred hf
    rw [hpred] at hp
    obtain ⟨k1, room1⟩ := p
    have hk := honly k1 room1 hm hp
    subst hk
    have e1 := ownProp_of_mem hinv.keys_nodup hm
    have e2 := ownProp_of_mem hinv.keys_nodup hroom
    rw [e1] at e2
    cases e2
    rfl

/-- C15, amended: in a reachable state `jogar_carta` and `truco_action` from a
socket with a roster entry in room `key` and in no other room leave the state
as it was and send one message, `remote_jogar_carta` or `remote_truco_action`,
with the payload as received, to that room except the sender;
`distribuir_cartas` with a payload that is not nullish leaves the state as it
was and sends one message, named `distribuir_cartas`, with the payload as
received, to the room its `roomId` field names, except the sender. -/
theorem relay_events (s : State) (socket : String) :
    (Reachable s → ∀ (key : String) (room : Room) (data : Payload),
      (key, room) ∈ s.rooms → hasEntry s.heap socket room = true →
      (∀ k1 room1, (k1, room1) ∈ s.rooms → hasEntry s.heap socket room1 = true → k1 = key) →
      step s (.jogar_carta socket data) =
        some (s, [.emit (.roomExcept (.str key) socket) (.relay "remote_jogar_carta" data)]) ∧
      step s (.truco_action socket data) =
        some (s, [.emit (.roomExcept (.str key) socket) (.relay "remote_truco_action" data)])) ∧
    (∀ fields : List (String × JsVal),
      step s (.distribuir_cartas socket (.object fields)) =
        some (s, [.emit (.roomExcept (field fields "roomId") socket)
          (.relay "distribuir_cartas" (.object fields))])) := by
  constructor
  · intro hs key room data hroom hmember honly
    have hget := getRoomBySocket_unique hs.inv hroom hmember honly
    have hid := (hs.inv.rooms_ok key room hroom).id_eq
    simp only [step, relayBySocket, hget, hid, and_self]
  · intro fields
    rfl

theorem relay_events_witness :
    (("room_1", roomSeated) ∈ (State.after traceSeated).rooms ∧
     hasEntry (State.after traceSeated).heap "B" roomSeated = true) ∧
    (step (State.after traceSeated) (.jogar_carta "B" (.object [("carta", .num 7)])) =
        some (State.after traceSeated, [.emit (.roomExcept (.str "room_1") "B")
          (.relay "remote_jogar_carta" (.object [("carta", .num 7)]))]) ∧
     step (State.after traceSeated) (.truco_action "B" (.object [("carta", .num 7)])) =
        some (State.after traceSeated, [.emit (.roomExcept (.str "room_1") "B")
          (.relay "remote_truco_action" (.object [("carta", .num 7)]))])) ∧
    step (State.after traceSeated) (.distribuir_cartas "B" (inRoom "room_1")) =
      some (State.after traceSeated, [.emit (.roomExcept (.str "room_1") "B")
        (.relay "distribuir_cartas" (inRoom "room_1"))]) := by
  have hrooms : (State.after traceSeated).rooms = [("room_1", roomSeated)] := by decide
  refine ⟨⟨by decide, by decide⟩, ?_, ?_⟩
  · exact (relay_events (State.after traceSeated) "B").1 (reachable_after traceSeated)
      "room_1" roomSeated (.object [("carta", .num 7)]) (by decide) (by decide) (by
        intro k1 room1 hm _
        rw [hrooms] at hm
        simp only [List.mem_singleton, Prod.mk.injEq] at hm
        exact hm.1)
  · exact (relay_events (State.after traceSeated) "B").2 [("roomId", .str "room_1")]

/-- C16: the scenario run from the empty directory sends, in this order,
`room_created` with `room_1` to `A` (and the room list), `room_state` to `A`
with four empty seats, `update_players` with `A` at seat 2 and the other seats
empty (and the room list with count 1), and on the disconnect an
`update_players` with four empty seats and an empty room list; it ends with no
room in the directory. -/
theorem scenario_create_join_sit_disconnect :
    run State.init traceScenario =
      some ({ rooms := [], heap := [anaAtTwo] },
        [.emit (.socket "A") (.room_created "room_1"),
         .emit .all (.room_list_update
           [{ id := "room_1", name := "Sala 1", count := 0, full := false }]),
         .join "A" (.str "room_1"),
         .emit (.socket "A") (.room_state "room_1" "Sala 1"
           [("0", none), ("1", none), ("2", none), ("3", none)] "A"),
         .emit (.room (.str "room_1")) (.update_players
           [("0", none), ("1", none), ("2", some anaAtTwo), ("3", none)]),
         .emit .all (.room_list_update
           [{ id := "room_1", name := "Sala 1", count := 1, full := false }]),
         .emit (.room (.str "room_1")) (.update_players
           [("0", none), ("1", none), ("2", none), ("3", none)]),
         .emit .all (.room_list_update [])]) ∧
    countOf (State.after (traceScenario.take 3)) "room_1" = some 1 ∧
    (State.after traceScenario).rooms = [] := by
  decide

theorem listsCurrent_nil (rooms : List (String × Room)) : ListsCurrent [] rooms := by
  intro o ho; cases ho

theorem shape_create_room {s s1 : State} {socket : String} {playerName : JsVal} {e : Event}
    {outs : List Out} (hstep : create_room s socket playerName = some (s1, outs)) :
    ListsCurrent outs s1.rooms ∧ RoomsChange s e s1 := by
  unfold create_room at hstep
  split at hstep
  · cases hstep
    refine ⟨?_, Or.inl rfl⟩
    intro o ho hl
    simp only [List.mem_singleton] at ho
    subst ho; cases hl
  · rename_i hcap
    split at hstep
    · cases hstep
    · rename_i n hn
      obtain ⟨h1, h2, h3, _⟩ := searchRoomNum_some _ _ _ hn
      have hn10 : n ≤ 10 := by omega
      have hnone : ownProp s.rooms (roomKey n) = none := getProp_undefined h3
      have hset : setProp s.rooms (roomKey n) (newRoom n) = s.rooms ++ [(roomKey n, newRoom n)] :=
        setProp_new _ (roomKey_ne_proto h1 hn10) hnone
      simp only [Option.some.injEq, Prod.mk.injEq] at hstep
      obtain ⟨hs1, houts⟩ := hstep
      have hrooms : s1.rooms = s.rooms ++ [(roomKey n, newRoom n)] := by
        rw [← hs1, ← hset]; rfl
      refine ⟨?_, Or.inr (Or.inl ⟨n, hnone, hrooms⟩)⟩
      intro o ho hl
      rw [← houts] at ho
      simp only [List.mem_cons, List.mem_singleton, List.not_mem_nil, or_false] at ho
      rcases ho with rfl | rfl
      · cases hl
      · rw [← hs1]

theorem shape_join_room {s s1 : State} {socket : String} {f : List (String × JsVal)}
    {outs : List Out}
    (hstep : join_room s socket (field f "roomId") (field f "playerName") (field f "avatarId") =
      some (s1, outs)) :
    ListsCurrent outs s1.rooms ∧ RoomsChange s (.join_room socket (.object f)) s1 := by
  unfold join_room at hstep
  split at hstep
  · cases hstep
    refine ⟨?_, Or.inl rfl⟩
    intro o ho hl
    simp only [List.mem_singleton] at ho
    subst ho; cases hl
  · cases hstep
  · rename_i room hroom
    have hown := getProp_own hroom
    simp only [Option.some.injEq, Prod.mk.injEq] at hstep
    obtain ⟨hs1, houts⟩ := hstep
    refine ⟨?_, Or.inr (Or.inr (Or.inl ⟨_, room,
      { room with clients := room.clients ++ [s.heap.length] }, hown, by rw [← hs1], rfl, rfl,
      fun h => h, Or.inr (Or.inl (by simp [joinsRoom]))⟩))⟩
    intro o ho hl
    rw [← houts] at ho
    simp only [List.mem_cons, List.mem_singleton, List.not_mem_nil, or_false] at ho
    rcases ho with rfl | rfl <;> cases hl

theorem shape_sit_down {s s1 : State} {socket : String} {roomId slot : JsVal} {e : Event}
    {outs : List Out} (hstep : sit_down s socket roomId slot = some (s1, outs)) :
    ListsCurrent outs s1.rooms ∧ RoomsChange s e s1 := by
  unfold sit_down at hstep
  split at hstep
  · cases hstep; exact ⟨listsCurrent_nil _, Or.inl rfl⟩
  · cases hstep
  · rename_i room hroom
    have hown := getProp_own hroom
    split at hstep
    · split at hstep
      · cases hstep; exact ⟨listsCurrent_nil _, Or.inl rfl⟩
      · split at hstep
        · cases hstep; exact ⟨listsCurrent_nil _, Or.inl rfl⟩
        · rename_i client hc
          simp only [Option.some.injEq, Prod.mk.injEq] at hstep
          obtain ⟨hs1, houts⟩ := hstep
          refine ⟨?_, Or.inr (Or.inr (Or.inl ⟨_, room, _, hown, by rw [← hs1], ?_, ?_, ?_, ?_⟩))⟩
          · intro o ho hl
            rw [← houts] at ho
            simp only [List.mem_cons, List.mem_singleton, List.not_mem_nil, or_false] at ho
            rcases ho with rfl | rfl
            · cases hl
            · rw [← hs1]
          · show (ite _ _ _ : Room).id = _
            split <;> rfl
          · show (ite _ _ _ : Room).name = _
            split <;> rfl
          · show _ → (ite _ _ _ : Room).gameStarted = true
            split <;> exact fun h => h
          · left
            show (ite _ _ _ : Room).clients = _
            split <;> rfl
    · cases hstep
      refine ⟨?_, Or.inl rfl⟩
      intro o ho hl
      simp only [List.mem_singleton] at ho
      subst ho; cases hl

theorem shape_leave_seat {s s1 : State} {socket : String} {roomId : JsVal} {e : Event}
    {outs : List Out} (hstep : leave_seat s socket roomId = some (s1, outs)) :
    ListsCurrent outs s1.rooms ∧ RoomsChange s e s1 := by
  unfold leave_seat at hstep
  split at hstep
  · cases hstep; exact ⟨listsCurrent_nil _, Or.inl rfl⟩
  · cases hstep
  · rename_i room hroom
    have hown := getProp_own hroom
    split at hstep
    · cases hstep; exact ⟨listsCurrent_nil _, Or.inl rfl⟩
    · split at hstep
      · cases hstep; exact ⟨listsCurrent_nil _, Or.inl rfl⟩
      · split at hstep
        · simp only [Option.some.injEq, Prod.mk.injEq] at hstep
          obtain ⟨hs1, houts⟩ := hstep
          rename_i ref _ _ client _ _
          refine ⟨?_, Or.inr (Or.inr (Or.inl ⟨_, room,
            { room with players := setProp room.players client.slot.toKey none,
                        playerCount := room.playerCount - 1 },
            hown, by rw [← hs1], rfl, rfl, fun h => h, Or.inl rfl⟩))⟩
          intro o ho hl
          rw [← houts] at ho
          simp only [List.mem_append, List.mem_cons, List.mem_singleton, List.not_mem_nil,
            or_false] at ho
          rcases ho with (rfl | rfl) | ho
          · cases hl
          · rw [← hs1]
          · split at ho
            · simp only [List.mem_singleton] at ho
              subst ho; cases hl
            · cases ho
        · cases hstep; exact ⟨listsCurrent_nil _, Or.inl rfl⟩

theorem shape_request_start_game {s s1 : State} {socket : String} {roomId : JsVal} {e : Event}
    {outs : List Out} (hstep : request_start_game s socket roomId = some (s1, outs)) :
    ListsCurrent outs s1.rooms ∧ RoomsChange s e s1 := by
  unfold request_start_game at hstep
  split at hstep
  · rename_i room hroom
    have hown := getProp_own hroom
    split at hstep
    · simp only [Option.some.injEq, Prod.mk.injEq] at hstep
      obtain ⟨hs1, houts⟩ := hstep
      refine ⟨?_, Or.inr (Or.inr (Or.inl ⟨_, room, { room with gameStarted := true }, hown,
        by rw [← hs1], rfl, rfl, fun _ => rfl, Or.inl rfl⟩))⟩
      intro o ho hl
      rw [← houts] at ho
      simp only [List.mem_singleton] at ho
      subst ho; cases hl
    · cases hstep; exact ⟨listsCurrent_nil _, Or.inl rfl⟩
  · cases hstep; exact ⟨listsCurrent_nil _, Or.inl rfl⟩

theorem removeClient_outs (s : State) (id : String) (room : Room) (clientIdx : Nat)
    (client : Client) :
    ListsCurrent (removeClient s id room clientIdx client).2
      (removeClient s id room clientIdx client).1.rooms := by
  intro o ho hl
  simp only [removeClient, List.mem_append, List.mem_singleton] at ho
  rcases ho with ho | ho
  · exfalso
    split at ho
    · simp only [List.mem_append, List.mem_singleton] at ho
      rcases ho with ho | ho
      · subst ho; cases hl
      · split at ho
        · simp only [List.mem_singleton] at ho
          subst ho; cases hl
        · cases ho
    · cases ho
  · rw [ho]; rfl

theorem shape_disconnect {s s1 : State} {socket : String} {e : Event} {outs : List Out}
    (hnd : (s.rooms.map Prod.fst).Nodup)
    (hstep : disconnect s socket = some (s1, outs)) :
    ListsCurrent outs s1.rooms ∧ RoomsChange s e s1 := by
  simp only [disconnect, Option.some.injEq] at hstep
  rcases disconnectLoop_cases s socket s.rooms with ⟨_, h2⟩ |
    ⟨pre, id, room, post, idx, ref, h1, _, _, h4, _, client, _, _, h8⟩
  · rw [h2] at hstep
    cases hstep
    exact ⟨listsCurrent_nil _, Or.inl rfl⟩
  · rw [h8] at hstep
    have hm : (id, room) ∈ s.rooms := by rw [h1]; simp
    have hown : ownProp s.rooms id = some room := ownProp_of_mem hnd hm
    have hne : room.clients ≠ [] := by
      intro h0; rw [h0] at h4; simp at h4
    have hs1 : s1 = (removeClient s id room idx client).1 := by rw [hstep]
    have houts : outs = (removeClient s id room idx client).2 := by rw [hstep]
    refine ⟨by rw [hs1, houts]; exact removeClient_outs s id room idx client, ?_⟩
    have hrooms : s1.rooms =
        (if (room.clients.eraseIdx idx).length = 0 then deleteProp s.rooms id
         else replaceOwn s.rooms id
           { vacate room client with clients := room.clients.eraseIdx idx }) := by
      rw [hs1, removeClient_state]
    split at hrooms
    · exact Or.inr (Or.inr (Or.inr ⟨id, room, hown, hne, hrooms⟩))
    · refine Or.inr (Or.inr (Or.inl ⟨id, room, _, hown, hrooms, ?_, ?_, ?_, Or.inr (Or.inr hne)⟩))
      · show (vacate room client).id = _
        unfold vacate; split <;> rfl
      · show (vacate room client).name = _
        unfold vacate; split <;> rfl
      · show _ → (vacate room client).gameStarted = true
        rw [vacate_gameStarted]; exact fun h => h

/-- What one handler run does to the directory and which room list it sends. -/
theorem step_shape {s s1 : State} {e : Event} {outs : List Out}
    (hnd : (s.rooms.map Prod.fst).Nodup) (hstep : step s e = some (s1, outs)) :
    ListsCurrent outs s1.rooms ∧ RoomsChange s e s1 := by
  cases e with
  | connection socket =>
    simp only [step, Option.some.injEq, Prod.mk.injEq] at hstep
    obtain ⟨hs1, houts⟩ := hstep
    subst hs1
    refine ⟨?_, Or.inl rfl⟩
    intro o ho _
    rw [← houts] at ho
    simpa using ho
  | create_room socket p =>
    cases p with
    | nullish => cases hstep
    | object f => simp only [step] at hstep; exact shape_create_room hstep
  | join_room socket p =>
    cases p with
    | nullish => cases hstep
    | object f => simp only [step] at hstep; exact shape_join_room hstep
  | sit_down socket p =>
    cases p with
    | nullish => cases hstep
    | object f => simp only [step] at hstep; exact shape_sit_down hstep
  | leave_seat socket p =>
    cases p with
    | nullish => cases hstep
    | object f => simp only [step] at hstep; exact shape_leave_seat hstep
  | request_start_game socket p =>
    cases p with
    | nullish => cases hstep
    | object f => simp only [step] at hstep; exact shape_request_start_game hstep
  | distribuir_cartas socket data =>
    cases data with
    | nullish => cases hstep
    | object f =>
      simp only [step, distribuir_cartas, Option.some.injEq, Prod.mk.injEq] at hstep
      obtain ⟨hs1, houts⟩ := hstep
      subst hs1
      refine ⟨?_, Or.inl rfl⟩
      intro o ho hl
      rw [← houts] at ho
      simp only [List.mem_singleton] at ho
      subst ho; cases hl
  | jogar_carta socket data =>
    simp only [step, relayBySocket] at hstep
    split at hstep
    · simp only [Option.some.injEq, Prod.mk.injEq] at hstep
      obtain ⟨hs1, houts⟩ := hstep
      subst hs1
      refine ⟨?_, Or.inl rfl⟩
      intro o ho hl
      rw [← houts] at ho
      simp only [List.mem_singleton] at ho
      subst ho; cases hl
    · cases hstep; exact ⟨listsCurrent_nil _, Or.inl rfl⟩
  | truco_action socket data =>
    simp only [step, relayBySocket] at hstep
    split at hstep
    · simp only [Option.some.injEq, Prod.mk.injEq] at hstep
      obtain ⟨hs1, houts⟩ := hstep
      subst hs1
      refine ⟨?_, Or.inl rfl⟩
      intro o ho hl
      rw [← houts] at ho
      simp only [List.mem_singleton] at ho
      subst ho; cases hl
    · cases hstep; exact ⟨listsCurrent_nil _, Or.inl rfl⟩
  | disconnect socket =>
    simp only [step] at hstep
    exact shape_disconnect hnd hstep

theorem ownProp_append {α : Type} (o : List (String × α)) (k key : String) (w : α) :
    ownProp (o ++ [(k, w)]) key =
      match ownProp o key with
      | some v => some v
      | none => if k = key then some w else none := by
  induction o with
  | nil => simp [ownProp]
  | cons p o ih =>
    obtain ⟨k1, v1⟩ := p
    simp only [List.cons_append, ownProp]
    split
    · rfl
    · exact ih

/-- A room that is in the directory before a handler run is in it afterwards,
under the same id and name and with its started flag still set if it was,
unless the run deleted it, which happens only to a room with roster entries;
its roster stays empty unless the event is a `join_room` for it. -/
theorem room_after_step {s s1 : State} {e : Event} {outs : List Out}
    (hnd : (s.rooms.map Prod.fst).Nodup) (hstep : step s e = some (s1, outs))
    {key : String} {room : Room} (hroom : ownProp s.rooms key = some room) :
    (∃ room1, ownProp s1.rooms key = some room1 ∧ room1.id = room.id ∧ room1.name = room.name ∧
      (room.gameStarted = true → room1.gameStarted = true) ∧
      (room.clients = [] → joinsRoom key e = false → room1.clients = [])) ∨
    (ownProp s1.rooms key = none ∧ room.clients ≠ []) := by
  rcases (step_shape hnd hstep).2 with h | ⟨n, hn, h⟩ | ⟨k, r0, r1, h0, h, h1, h2, h3, h4⟩ |
    ⟨k, r0, h0, h1, h⟩
  · left
    exact ⟨room, by rw [h]; exact hroom, rfl, rfl, fun x => x, fun x _ => x⟩
  · left
    refine ⟨room, ?_, rfl, rfl, fun x => x, fun x _ => x⟩
    rw [h, ownProp_append, hroom]
  · left
    by_cases hk : key = k
    · subst hk
      rw [hroom] at h0; cases h0
      refine ⟨r1, by rw [h, ownProp_replaceOwn]; simp [hroom], h1, h2, h3, ?_⟩
      intro hempty hjoin
      rcases h4 with h4 | h4 | h4
      · rw [h4]; exact hempty
      · rw [h4] at hjoin; cases hjoin
      · exact absurd hempty h4
    · refine ⟨room, ?_, rfl, rfl, fun x => x, fun x _ => x⟩
      rw [h, ownProp_replaceOwn, if_neg (fun hc => hk hc.1)]
      exact hroom
  · by_cases hk : key = k
    · subst hk
      rw [hroom] at h0; cases h0
      right
      exact ⟨by rw [h, ownProp_deleteProp, if_pos rfl], h1⟩
    · left
      refine ⟨room, ?_, rfl, rfl, fun x => x, fun x _ => x⟩
      rw [h, ownProp_deleteProp, if_neg hk]
      exact hroom

theorem map_fst_eq_some {α β : Type} {o : Option (α × β)} {a : α}
    (h : o.map Prod.fst = some a) : ∃ b, o = some (a, b) := by
  cases o with
  | none => cases h
  | some p =>
    obtain ⟨a1, b1⟩ := p
    simp only [Option.map_some', Option.some.injEq] at h
    subst h
    exact ⟨b1, rfl⟩

theorem startedFlag_step {s s1 : State} {e : Event} {outs : List Out}
    (hnd : (s.rooms.map Prod.fst).Nodup) (hstep : step s e = some (s1, outs)) {key : String}
    (hstarted : startedFlag s key = some true) (hpresent : (ownProp s1.rooms key).isSome = true) :
    startedFlag s1 key = some true := by
  unfold startedFlag at hstarted
  cases hroom : ownProp s.rooms key with
  | none => rw [hroom] at hstarted; cases hstarted
  | some room =>
    rw [hroom] at hstarted
    simp only [Option.map_some', Option.some.injEq] at hstarted
    rcases room_after_step hnd hstep hroom with ⟨room1, h1, _, _, h4, _⟩ | ⟨h1, _⟩
    · simp [startedFlag, h1, h4 hstarted]
    · rw [h1] at hpresent; cases hpresent

/-- C17: once the started flag of a room is set in a reachable state, it is set
after every handler run that leaves the room in the directory, and at the end
of every run of events throughout which the room is in the directory. -/
theorem started_flag_stays (s : State) (hs : Reachable s) (key : String)
    (hstarted : startedFlag s key = some true) :
    (∀ (e : Event) (s1 : State), (step s e).map Prod.fst = some s1 →
      (ownProp s1.rooms key).isSome = true → startedFlag s1 key = some true) ∧
    (∀ (es : List Event) (s1 : State), (run s es).map Prod.fst = some s1 →
      presentAlong key s es = true → startedFlag s1 key = some true) := by
  constructor
  · intro e s1 hstep hpresent
    obtain ⟨outs, hstep⟩ := map_fst_eq_some hstep
    exact startedFlag_step hs.inv.keys_nodup hstep hstarted hpresent
  · intro es
    induction es generalizing s with
    | nil =>
      intro s1 hrun _
      simp only [run, Option.map_some', Option.some.injEq] at hrun
      subst hrun; exact hstarted
    | cons e es ih =>
      intro s1 hrun hpresent
      obtain ⟨outs, hrun⟩ := map_fst_eq_some hrun
      simp only [run] at hrun
      split at hrun
      · cases hrun
      · rename_i s2 outs2 hstep
        split at hrun
        · cases hrun
        · rename_i s3 outs3 hrest
          cases hrun
          simp only [presentAlong, hstep, Bool.and_eq_true] at hpresent
          have hp2 : (ownProp s2.rooms key).isSome = true := by
            cases es with
            | nil => exact hpresent.2
            | cons e2 es2 =>
              have := hpresent.2
              simp only [presentAlong, Bool.and_eq_true] at this
              exact this.1
          exact ih s2 (Reachable.step hs hstep)
            (startedFlag_step hs.inv.keys_nodup hstep hstarted hp2) s1
            (by rw [hrest]; rfl) hpresent.2

theorem started_flag_stays_witness :
    (startedFlag (State.after traceStarted) "room_1" = some true ∧
     (run (State.after traceStarted) traceAfterStart).map Prod.fst =
       some (State.after (traceStarted ++ traceAfterStart)) ∧
     presentAlong "room_1" (State.after traceStarted) traceAfterStart = true) ∧
    countOf (State.after (traceStarted ++ traceAfterStart)) "room_1" = some 3 ∧
    startedFlag (State.after (traceStarted ++ traceAfterStart)) "room_1" = some true :=
  ⟨⟨by decide, by decide, by decide⟩, by decide,
   (started_flag_stays (State.after traceStarted) (reachable_after traceStarted) "room_1"
     (by decide)).2 traceAfterStart (State.after (traceStarted ++ traceAfterStart))
     (by decide) (by decide)⟩

theorem full_iff_all_occupied {heap : List Client} {key : String} {room : Room}
    (h : RoomInv heap key room) :
    room.playerCount ≥ 4 ↔ ∀ k ∈ seatKeys, occupiedAt room.players k = true := by
  rw [h.count_seats]
  simp only [occupiedSeats]
  have hle : seatKeys.countP (occupiedAt room.players) ≤ seatKeys.length := List.countP_le_length _
  have hlen : seatKeys.length = 4 := rfl
  constructor
  · intro hge
    have hge1 : 4 ≤ seatKeys.countP (occupiedAt room.players) := by exact_mod_cast hge
    have heq : seatKeys.countP (occupiedAt room.players) = seatKeys.length := by omega
    exact List.countP_eq_length.1 heq
  · intro hall
    have heq : seatKeys.countP (occupiedAt room.players) = seatKeys.length :=
      List.countP_eq_length.2 hall
    rw [heq, hlen]
    decide

/-- C18: in every reachable state the room list `broadcastRoomList` sends has
one entry per room of the directory, in directory order and with distinct ids;
the entry of a room carries its id, its name, its `playerCount`, and a full
flag that is `true` exactly when `playerCount ≥ 4`, which holds exactly when
all four seats are occupied; and every `room_list_update` a handler sends is
this list for the state the handler leaves. -/
theorem room_list_payload (s : State) (hs : Reachable s) :
    broadcastRoomList s.rooms =
      .emit .all (.room_list_update (s.rooms.map (fun p => roomInfo p.2))) ∧
    ((s.rooms.map (fun p => roomInfo p.2)).map (fun i => i.id)).Nodup ∧
    (∀ key room, (key, room) ∈ s.rooms →
      (roomInfo room).id = key ∧ (roomInfo room).name = room.name ∧
      (roomInfo room).count = room.playerCount ∧
      ((roomInfo room).full = true ↔ room.playerCount ≥ 4) ∧
      (room.playerCount ≥ 4 ↔ ∀ k ∈ seatKeys, occupiedAt room.players k = true)) ∧
    (∀ (e : Event) (s1 : State) (outs : List Out), step s e = some (s1, outs) →
      ∀ o ∈ outs, isRoomList o = true →
        o = .emit .all (.room_list_update (s1.rooms.map (fun p => roomInfo p.2)))) := by
  have hmap : ∀ {t : State}, Inv t →
      t.rooms.map (fun p => RoomInfo.mk p.1 p.2.name p.2.playerCount
        (decide (p.2.playerCount ≥ (4 : Int)))) = t.rooms.map (fun p => roomInfo p.2) := by
    intro t ht
    apply List.map_congr_left
    intro p hp
    obtain ⟨k, room⟩ := p
    simp only [roomInfo, (ht.rooms_ok k room hp).id_eq]
  have hb : ∀ {t : State}, Inv t →
      broadcastRoomList t.rooms =
        .emit .all (.room_list_update (t.rooms.map (fun p => roomInfo p.2))) := by
    intro t ht
    unfold broadcastRoomList
    rw [hmap ht]
  refine ⟨hb hs.inv, ?_, ?_, ?_⟩
  · have hids : (s.rooms.map (fun p => roomInfo p.2)).map (fun i => i.id) =
        s.rooms.map Prod.fst := by
      rw [List.map_map]
      apply List.map_congr_left
      intro p hp
      obtain ⟨k, room⟩ := p
      simp only [Function.comp_apply, roomInfo, (hs.inv.rooms_ok k room hp).id_eq]
    rw [hids]
    exact hs.inv.keys_nodup
  · intro key room hroom
    have hr := hs.inv.rooms_ok key room hroom
    refine ⟨hr.id_eq, rfl, rfl, by simp [roomInfo], full_iff_all_occupied hr⟩
  · intro e s1 outs hstep o ho hl
    rw [← hb (hs.inv.step hstep)]
    exact (step_shape hs.inv.keys_nodup hstep).1 o ho hl

theorem room_list_payload_witness :
    (("room_1", roomStarted) ∈ (State.after traceStarted).rooms ∧
     step (State.after traceStarted) (.leave_seat "A" (inRoom "room_1")) =
       some (State.after traceLeft, (outsAfter traceLeft).drop 19)) ∧
    broadcastRoomList (State.after traceStarted).rooms =
      .emit .all (.room_list_update
        [{ id := "room_1", name := "Sala 1", count := 4, full := true }]) ∧
    ((roomInfo roomStarted).id = "room_1" ∧ (roomInfo roomStarted).name = roomStarted.name ∧
      (roomInfo roomStarted).count = roomStarted.playerCount ∧
      ((roomInfo roomStarted).full = true ↔ roomStarted.playerCount ≥ 4) ∧
      (roomStarted.playerCount ≥ 4 ↔
        ∀ k ∈ seatKeys, occupiedAt roomStarted.players k = true)) ∧
    (∀ o ∈ ((outsAfter traceLeft).drop 19), isRoomList o = true →
      o = .emit .all (.room_list_update
        ((State.after traceLeft).rooms.map (fun p => roomInfo p.2)))) ∧
    (State.after traceLeft).rooms.map (fun p => roomInfo p.2) =
      [{ id := "room_1", name := "Sala 1", count := 3, full := false }] :=
  ⟨⟨by decide, by decide⟩, by decide,
   (room_list_payload (State.after traceStarted) (reachable_after traceStarted)).2.2.1
     "room_1" roomStarted (by decide),
   (room_list_payload (State.after traceStarted) (reachable_after traceStarted)).2.2.2
     (.leave_seat "A" (inRoom "room_1")) (State.after traceLeft)
     ((outsAfter traceLeft).drop 19) (by decide),
   by decide⟩

/-- C19: in a room whose seat table has the four seats as its keys,
`sit_down` with a slot whose property key is none of `0`, `1`, `2`, `3`
(negative, 4 or larger, missing) leaves the state as it was and only replies
`sit_error` to the sender; and in every reachable state every seat table has
exactly those keys and every roster entry has slot `-1` or a slot naming one
of the four seats. -/
theorem sit_down_invalid_slot (s : State) :
    (∀ (socket : String) (roomId slot : JsVal) (room : Room),
      ownProp s.rooms roomId.toKey = some room → room.players.map Prod.fst = seatKeys →
      slot.toKey ∉ seatKeys →
      sit_down s socket roomId slot =
        some (s, [.emit (.socket socket) (.sit_error "Lugar ocupado!")])) ∧
    (Reachable s → ∀ key room, (key, room) ∈ s.rooms →
      room.players.map Prod.fst = seatKeys ∧
      ∀ r ∈ room.clients, ∀ c, s.heap[r]? = some c →
        c.slot = .num (-1) ∨ c.slot.toKey ∈ seatKeys) := by
  constructor
  · intro socket roomId slot room hroom hkeys hslot
    have hnone : ownProp room.players slot.toKey = none :=
      ownProp_eq_none (by rw [hkeys]; exact hslot)
    unfold sit_down
    rw [getProp_of_own hroom]
    simp only
    cases hg : getProp room.players slot.toKey with
    | own v => rw [getProp_own hg] at hnone; cases hnone
    | inherited => rfl
    | undefined => rfl
  · intro hs key room hroom
    have hr := hs.inv.rooms_ok key room hroom
    refine ⟨hr.keys, ?_⟩
    intro r hmem c hc
    by_cases hslot : c.slot = .num (-1)
    · exact Or.inl hslot
    · exact Or.inr (own_key_is_seat hr.keys (hr.roster_seat r hmem c hc hslot))

theorem sit_down_invalid_slot_witness :
    (ownProp (State.after traceSeated).rooms (JsVal.str "room_1").toKey = some roomSeated ∧
     roomSeated.players.map Prod.fst = seatKeys ∧
     (JsVal.num 4).toKey ∉ seatKeys ∧ (JsVal.num (-1)).toKey ∉ seatKeys ∧
     JsVal.undefined.toKey ∉ seatKeys) ∧
    sit_down (State.after traceSeated) "B" (.str "room_1") (.num 4) =
      some (State.after traceSeated, [.emit (.socket "B") (.sit_error "Lugar ocupado!")]) ∧
    sit_down (State.after traceSeated) "B" (.str "room_1") (.num (-1)) =
      some (State.after traceSeated, [.emit (.socket "B") (.sit_error "Lugar ocupado!")]) ∧
    step (State.after traceSeated) (.sit_down "B" (inRoom "room_1")) =
      some (State.after traceSeated, [.emit (.socket "B") (.sit_error "Lugar ocupado!")]) ∧
    (roomSeated.players.map Prod.fst = seatKeys ∧
      ∀ r ∈ roomSeated.clients, ∀ c, (State.after traceSeated).heap[r]? = some c →
        c.slot = .num (-1) ∨ c.slot.toKey ∈ seatKeys) :=
  ⟨⟨by decide, by decide, by decide, by decide, by decide⟩,
   (sit_down_invalid_slot (State.after traceSeated)).1 "B" (.str "room_1") (.num 4) roomSeated
     (by decide) (by decide) (by decide),
   (sit_down_invalid_slot (State.after traceSeated)).1 "B" (.str "room_1") (.num (-1)) roomSeated
     (by decide) (by decide) (by decide),
   (sit_down_invalid_slot (State.after traceSeated)).1 "B" (.str "room_1") .undefined roomSeated
     (by decide) (by decide) (by decide),
   (sit_down_invalid_slot (State.after traceSeated)).2 (reachable_after traceSeated)
     "room_1" roomSeated (by decide)⟩

/-- C20: a room with an empty roster is still in the directory, under its id
and name, after any single handler run; and through every run of events from a
reachable state in which no `join_room` names it, it stays in the directory
with its id and an empty roster. -/
theorem empty_room_stays (s : State) (key : String) (room : Room)
    (hroom : ownProp s.rooms key = some room) (hempty : room.clients = []) :
    ((s.rooms.map Prod.fst).Nodup → ∀ (e : Event) (s1 : State),
      (step s e).map Prod.fst = some s1 →
      ∃ room1, ownProp s1.rooms key = some room1 ∧ room1.id = room.id ∧
        room1.name = room.name) ∧
    (Reachable s → ∀ (es : List Event) (s1 : State), (run s es).map Prod.fst = some s1 →
      neverJoins key es = true →
      ∃ room1, ownProp s1.rooms key = some room1 ∧ room1.id = room.id ∧
        room1.name = room.name ∧ room1.clients = [] ∧ key ∈ s1.rooms.map Prod.fst) := by
  constructor
  · intro hnd e s1 hstep
    obtain ⟨outs, hstep⟩ := map_fst_eq_some hstep
    rcases room_after_step hnd hstep hroom with ⟨room1, h1, h2, h3, _, _⟩ | ⟨_, h2⟩
    · exact ⟨room1, h1, h2, h3⟩
    · exact absurd hempty h2
  · intro hs es
    induction es generalizing s room with
    | nil =>
      intro s1 hrun _
      simp only [run, Option.map_some', Option.some.injEq] at hrun
      subst hrun
      exact ⟨room, hroom, rfl, rfl, hempty, ownProp_key_mem hroom⟩
    | cons e es ih =>
      intro s1 hrun hnever
      obtain ⟨outs, hrun⟩ := map_fst_eq_some hrun
      simp only [neverJoins, List.all_cons, Bool.and_eq_true, Bool.not_eq_true'] at hnever
      simp only [run] at hrun
      split at hrun
      · cases hrun
      · rename_i s2 outs2 hstep
        split at hrun
        · cases hrun
        · rename_i s3 outs3 hrest
          cases hrun
          rcases room_after_step hs.inv.keys_nodup hstep hroom with
            ⟨room1, h1, h2, h3, _, h5⟩ | ⟨_, h2⟩
          · obtain ⟨room2, g1, g2, g3, g4, g5⟩ :=
              ih s2 room1 h1 (h5 hempty hnever.1) (Reachable.step hs hstep) s1
                (by rw [hrest]; rfl) hnever.2
            exact ⟨room2, g1, g2.trans h2, g3.trans h3, g4, g5⟩
          · exact absurd hempty h2

theorem empty_room_stays_witness :
    (ownProp (State.after traceFreed).rooms "room_3" = some (newRoom 3) ∧
     (newRoom 3).clients = [] ∧
     (run (State.after traceFreed) traceAround).map Prod.fst =
       some (State.after (traceFreed ++ traceAround)) ∧
     neverJoins "room_3" traceAround = true) ∧
    (State.after (traceFreed ++ traceAround)).rooms.map Prod.fst = ["room_1", "room_3"] ∧
    (∃ room1, ownProp (State.after (traceFreed ++ traceAround)).rooms "room_3" = some room1 ∧
      room1.id = (newRoom 3).id ∧ room1.name = (newRoom 3).name ∧ room1.clients = [] ∧
      "room_3" ∈ (State.after (traceFreed ++ traceAround)).rooms.map Prod.fst) ∧
    (∃ room1, ownProp (State.after (traceFreed ++ [.disconnect "A"])).rooms "room_3" =
        some room1 ∧ room1.id = (newRoom 3).id ∧ room1.name = (newRoom 3).name) :=
  ⟨⟨by decide, by decide, by decide, by decide⟩, by decide,
   (empty_room_stays (State.after traceFreed) "room_3" (newRoom 3) (by decide) (by decide)).2
     (reachable_after traceFreed) traceAround (State.after (traceFreed ++ traceAround))
     (by decide) (by decide),
   (empty_room_stays (State.after traceFreed) "room_3" (newRoom 3) (by decide) (by decide)).1
     (by decide) (.disconnect "A") (State.after (traceFreed ++ [.disconnect "A"])) (by decide)⟩

end Truco
